import Mathlib

/-!
Verification of the attendance-reconstruction core.

This file gives a shallow embedding of the spec-relevant modules of the
repository and settles the frozen claims about them.

Embedded source modules:
* `src/lib/processors/StatusDeterminationV2.ts` — `determineShiftStatusV2`
  (tolerant policy).
* `src/app/api/v1/processor/route.ts` — `determineShiftStatus` (strict policy).
* `src/lib/utils/missingTimestampDetector.ts` — `detectMissingTimestamps`.
* `src/lib/utils/deviationParser.ts` — `parseDeviations`, `getMissedPunch`.
* the two `ShiftDetector.detectUserShifts` implementations (optimized
  single-pass and legacy nested-loop) together with their helpers
  (`classifyBursts`, `findShiftCode`, `isTimeInRange`,
  `isTimeInNormalizedRange`, `calculateActivityWindowEnd`,
  `findLatestCheckOut`).

Representation decisions (each isomorphic to the source's semantics):
* JavaScript strings are Lean `String`s; the JS relational operators on
  strings are embedded as code-point lexicographic comparison (`strLt`,
  `strGe`), which agrees with JS code-unit comparison on all ASCII data.
* In the shift detector every comparison first normalizes an `HH:MM:SS`
  time string to `HH:MM` via `substring(0, 5)` and then compares
  lexicographically; on zero-padded times that order coincides with the
  numeric order of minutes-of-day.  Times-of-day are therefore embedded as
  seconds-of-day (`Nat`), with the `substring(0,5)` normalization embedded
  as division by 60.  Absolute timestamps (`Date` values) are embedded as
  seconds (`Nat`), a day being 86400 seconds; `extractTime` is `% 86400`,
  `extractDate` rounds down to midnight, and `setDate(+1)` adds 86400.
* A JS `Map`/object iterated with `entries()` keeps insertion order, so the
  shift-template store is a `List (String × ShiftConfig)` and the first
  matching entry wins, as in the source.
-/

/-! ### JS string primitives -/

/-- Lexicographic (code-point) comparison of character lists, the order JS
uses for `<` on strings (identical on ASCII data). -/
def charListLt : List Char → List Char → Bool
  | [], [] => false
  | [], _ :: _ => true
  | _ :: _, [] => false
  | a :: as, b :: bs => if a < b then true else if b < a then false else charListLt as bs

/-- JS `a < b` on strings. -/
def strLt (a b : String) : Bool := charListLt a.data b.data

/-- JS `a >= b` on strings (negation of `<` in a total order). -/
def strGe (a b : String) : Bool := !strLt a b

/-- Does `pat` occur at the head of `l`? -/
def chStartsWith : List Char → List Char → Bool
  | [], _ => true
  | _ :: _, [] => false
  | a :: as, b :: bs => a == b && chStartsWith as bs

/-- Does `pat` occur anywhere in `l` (JS `String.includes`)? -/
def chContains (pat : List Char) : List Char → Bool
  | [] => pat.isEmpty
  | c :: cs => chStartsWith pat (c :: cs) || chContains pat cs

/-- JS `s.includes(pat)`. -/
def strIncludes (s pat : String) : Bool := chContains pat.data s.data

/-- JS `String.trim` on a character list (whitespace stripped both ends). -/
def jsTrim (l : List Char) : List Char :=
  ((l.dropWhile Char.isWhitespace).reverse.dropWhile Char.isWhitespace).reverse


/-! ### Data model of the deviation/quality evaluator -/

inductive TimestampField
  | checkIn
  | breakOut
  | breakIn
  | checkOut
deriving DecidableEq

inductive Severity
  | low
  | medium
  | high
deriving DecidableEq

inductive DataQuality
  | complete
  | partialTier
  | critical
deriving DecidableEq

/-- `MissingTimestamp` of `@/types/attendance`. -/
structure MissingTimestamp where
  field : TimestampField
  expectedTime : String
  severity : Severity
deriving DecidableEq

/-- The threshold fields of the source's `ShiftConfig` read by the two
status-determination policies (the window fields used only by the shift
detector are carried by `ShiftConfig` below). -/
structure ShiftThresholds where
  shiftStart : String
  checkInLateThreshold : String
  breakOutExpectedTime : String
  breakEndTime : String
  breakInLateThreshold : String
  checkOutExpectedTime : String
deriving DecidableEq

/-- `StatusDeterminationResultV2`. -/
structure StatusDeterminationResultV2 where
  status : String
  missingTimestamps : List MissingTimestamp
  requiresReview : Bool
  completenessPercentage : Nat
  dataQuality : DataQuality
deriving DecidableEq

/-- JS `t === null || t === ''` for a nullable string. -/
def isNullOrEmpty : Option String → Bool
  | none => true
  | some t => decide (t = "")

/-- `Math.round((present / total) * 100)` for natural `present ≤ total`:
the float arithmetic is exact for the quarters used here, and `Math.round`
rounds half away from zero, i.e. `⌊x + 1/2⌋` for non-negative `x`. -/
def jsRoundPercent (present total : Nat) : Nat :=
  (2 * (present * 100) + total) / (2 * total)

/-- `deviations.join(', ')` or `'On Time'` — shared tail of both policies. -/
def consolidate (devs : List String) : String :=
  if devs.isEmpty then "On Time" else String.intercalate ", " devs

/-- Display name of a field in the `[Missing: …]` bracket: the source
computes `field.charAt(0).toUpperCase() + field.slice(1).replace(/([A-Z])/g, ' $1')`,
which on the four field identifiers evaluates to the values below. -/
def fieldDisplayName : TimestampField → String
  | .checkIn => "Check In"
  | .breakOut => "Break Out"
  | .breakIn => "Break In"
  | .checkOut => "Check Out"

/-- Builds the v2 status string from the deviation list and the display
names of the missing fields. -/
def assembleStatus (devs : List String) (missingNames : List String) : String :=
  consolidate devs ++
    (if missingNames.isEmpty then ""
     else " [Missing: " ++ String.intercalate ", " missingNames ++ "]")

/-- The deviation labels the tolerant policy pushes, in source order (a
missing field is skipped, a present one is compared against its
threshold). -/
def deviationListV2 (checkInTime : String)
    (breakOutTime breakInTime checkOutTime : Option String)
    (cfg : ShiftThresholds) : List String :=
  (if strGe checkInTime cfg.checkInLateThreshold then ["Late Check-in"] else []) ++
  (if isNullOrEmpty breakOutTime then []
   else if strLt (breakOutTime.getD "") cfg.breakOutExpectedTime
   then ["Leave Soon Break Out"] else []) ++
  (if isNullOrEmpty breakInTime then []
   else if strGe (breakInTime.getD "") cfg.breakInLateThreshold
   then ["Late Break In"] else []) ++
  (if isNullOrEmpty checkOutTime then []
   else if strLt (checkOutTime.getD "") cfg.checkOutExpectedTime
   then ["Leave Soon Check Out"] else [])

/-- The missing-timestamp list the tolerant policy builds (in source order)
when `checkIn` is present. -/
def missingListV2 (breakOutTime breakInTime checkOutTime : Option String)
    (cfg : ShiftThresholds) : List MissingTimestamp :=
  (if isNullOrEmpty breakOutTime then [⟨.breakOut, cfg.breakOutExpectedTime, .low⟩] else []) ++
  (if isNullOrEmpty breakInTime then [⟨.breakIn, cfg.breakEndTime, .medium⟩] else []) ++
  (if isNullOrEmpty checkOutTime then [⟨.checkOut, cfg.checkOutExpectedTime, .high⟩] else [])

/-- `determineShiftStatusV2` of `src/lib/processors/StatusDeterminationV2.ts`
(tolerant policy).  `checkInTime` is a plain string (JS `!checkInTime` on a
string is the empty-string test); the other three are nullable. -/
def determineShiftStatusV2 (checkInTime : String)
    (breakOutTime breakInTime checkOutTime : Option String)
    (shiftConfig : ShiftThresholds) : StatusDeterminationResultV2 :=
  if checkInTime = "" then
    { status := "INVALID - No Check-In"
      missingTimestamps := [⟨.checkIn, shiftConfig.shiftStart, .high⟩]
      requiresReview := true
      completenessPercentage := 0
      dataQuality := .critical }
  else
    let deviations := deviationListV2 checkInTime breakOutTime breakInTime checkOutTime shiftConfig
    let missingTimestamps := missingListV2 breakOutTime breakInTime checkOutTime shiftConfig
    let status := assembleStatus deviations (missingTimestamps.map (fieldDisplayName ·.field))
    let completenessPercentage := jsRoundPercent (4 - missingTimestamps.length) 4
    if completenessPercentage = 100 then
      { status, missingTimestamps, requiresReview := false,
        completenessPercentage, dataQuality := .complete }
    else if 75 ≤ completenessPercentage then
      { status, missingTimestamps,
        requiresReview := missingTimestamps.any (fun mt => decide (mt.field = .checkOut)),
        completenessPercentage, dataQuality := .partialTier }
    else
      { status, missingTimestamps, requiresReview := true,
        completenessPercentage, dataQuality := .critical }

/-- The deviation labels the strict policy pushes, in source order: a falsy
(empty) field is simply not compared. -/
def deviationList (checkInTime breakOutTime breakInTime checkOutTime : String)
    (cfg : ShiftThresholds) : List String :=
  (if decide (checkInTime ≠ "") && strGe checkInTime cfg.checkInLateThreshold
   then ["Late Check-in"] else []) ++
  (if decide (breakOutTime ≠ "") && strLt breakOutTime cfg.breakOutExpectedTime
   then ["Leave Soon Break Out"] else []) ++
  (if decide (breakInTime ≠ "") && strGe breakInTime cfg.breakInLateThreshold
   then ["Late Break In"] else []) ++
  (if decide (checkOutTime ≠ "") && strLt checkOutTime cfg.checkOutExpectedTime
   then ["Leave Soon Check Out"] else [])

/-- `determineShiftStatus` of `src/app/api/v1/processor/route.ts`
(strict policy). -/
def determineShiftStatus (checkInTime breakOutTime breakInTime checkOutTime : String)
    (shiftConfig : ShiftThresholds) : String :=
  consolidate (deviationList checkInTime breakOutTime breakInTime checkOutTime shiftConfig)

/-- JS `!t || t.trim() === ''` for a nullable string (note: unlike
`isNullOrEmpty` this also treats whitespace-only values as missing). -/
def isBlankOrNull : Option String → Bool
  | none => true
  | some t => jsTrim t.data == []

/-- `detectMissingTimestamps` of `src/lib/utils/missingTimestampDetector.ts`. -/
def detectMissingTimestamps (checkInTime breakOutTime breakInTime checkOutTime : Option String)
    (shiftConfig : ShiftThresholds) : List MissingTimestamp :=
  (if isBlankOrNull checkInTime then [⟨.checkIn, shiftConfig.shiftStart, .high⟩] else []) ++
  (if isBlankOrNull breakOutTime then [⟨.breakOut, shiftConfig.breakOutExpectedTime, .low⟩] else []) ++
  (if isBlankOrNull breakInTime then [⟨.breakIn, shiftConfig.breakEndTime, .medium⟩] else []) ++
  (if isBlankOrNull checkOutTime then [⟨.checkOut, shiftConfig.checkOutExpectedTime, .high⟩] else [])

/-! ### Status parser (`src/lib/utils/deviationParser.ts`) -/

/-- `DeviationFlags`. -/
structure DeviationFlags where
  checkInLate : Bool
  breakOutEarly : Bool
  breakInLate : Bool
  checkOutEarly : Bool
  hasMissingTimestamps : Bool
deriving DecidableEq

/-- `parseDeviations`. -/
def parseDeviations (status : String) : DeviationFlags :=
  if status = "" || status = "On Time" then
    ⟨false, false, false, false, false⟩
  else
    { checkInLate := strIncludes status "Late Check-in" || strIncludes status "Check-in Late"
      breakOutEarly := strIncludes status "Leave Soon Break Out" || strIncludes status "Break Out Early"
      breakInLate := strIncludes status "Late Break In" || strIncludes status "Break In Late"
      checkOutEarly := strIncludes status "Leave Soon Check Out" ||
        strIncludes status "Check Out Early" ||
        (strIncludes status "Leave Soon" && !strIncludes status "Break Out" &&
          !strIncludes status "Check Out" && !strIncludes status "Break In")
      hasMissingTimestamps := strIncludes status "[Missing:" }

/-- The literal the regex `/\[Missing: ([^\]]+)\]/` must see before its
capture group: `[Missing: ` — note the trailing space. -/
def missingOpener : List Char := "[Missing: ".data

/-- First match of the regex `/\[Missing: ([^\]]+)\]/`: at the leftmost
position where the literal opener matches and is followed by at least one
non-`]` character and then a `]`, return the capture; a failed attempt
resumes at the next position, exactly as the backtracking-free scan of this
pattern does. -/
def findMissingSegment : List Char → Option (List Char)
  | [] => none
  | c :: cs =>
    if chStartsWith missingOpener (c :: cs) then
      let rest := (c :: cs).drop missingOpener.length
      let content := rest.takeWhile (fun ch => ch ≠ ']')
      if content.length ≠ 0 && content.length < rest.length then some content
      else findMissingSegment cs
    else findMissingSegment cs

/-- Split on `','` as JS `String.split(',')` does (never returns an empty
list, keeps empty tokens). -/
def splitCommas : List Char → List (List Char)
  | [] => [[]]
  | c :: cs =>
    if c = ',' then [] :: splitCommas cs
    else
      match splitCommas cs with
      | [] => [[c]]
      | t :: ts => (c :: t) :: ts

/-- The `switch` mapping full missing-field names to abbreviations. -/
def abbreviateItem (item : String) : String :=
  if item = "Check In" then "CI"
  else if item = "Check Out" then "CO"
  else if item = "Break Out" then "BTO"
  else if item = "Break In" then "BTI"
  else item

/-- `getMissedPunch`. -/
def getMissedPunch (status : String) : String :=
  if !strIncludes status "[Missing:" then ""
  else
    match findMissingSegment status.data with
    | some seg =>
        String.intercalate ", "
          ((splitCommas seg).map (fun t => abbreviateItem (String.mk (jsTrim t))))
    | none => ""

/-! ### Shift detector (`ShiftDetector`, both implementations)

Timestamps are seconds (`Nat`); a time-of-day is `t % 86400` seconds; the
`substring(0, 5)` normalization to `HH:MM` is division by 60. -/

/-- A `BurstRecord`'s fields read by the detector (the per-user grouping key
and swipe payload play no role in the per-user algorithm). -/
structure Burst where
  burstStart : Nat
  burstEnd : Nat
deriving DecidableEq

/-- The window fields of the source's `ShiftConfig` read by the detector,
as seconds-of-day. -/
structure ShiftConfig where
  checkInStart : Nat
  checkInEnd : Nat
  checkOutStart : Nat
  checkOutEnd : Nat
deriving DecidableEq

/-- `extractTime` (seconds-of-day of a timestamp). -/
def todOf (t : Nat) : Nat := t % 86400

/-- `extractDate` (midnight of the timestamp's day). -/
def extractDate (t : Nat) : Nat := t - t % 86400

/-- `isTimeInNormalizedRange` on minute-of-day values (`HH:MM` strings
compare exactly like their minute values). -/
def isTimeInNormalizedRange (time start stop : Nat) : Bool :=
  if start ≤ stop then start ≤ time && time ≤ stop
  else start ≤ time || time ≤ stop

/-- `isTimeInRange` — arguments in seconds-of-day, normalized to `HH:MM`
(minutes) before comparing, as the source's `substring(0, 5)` does. -/
def isTimeInRange (time start stop : Nat) : Bool :=
  isTimeInNormalizedRange (time / 60) (start / 60) (stop / 60)

/-- The pre-computed `shiftCheckInRanges` map: per code, the check-in window
normalized to minutes (`substring(0, 5)`), in insertion order. -/
def checkInRangesOf (shifts : List (String × ShiftConfig)) : List (String × Nat × Nat) :=
  shifts.map (fun p => (p.1, p.2.checkInStart / 60, p.2.checkInEnd / 60))

/-- `findShiftCode`: the first code whose normalized check-in range contains
the (normalized) time, else `null`. -/
def findShiftCode (ranges : List (String × Nat × Nat)) (time : Nat) : Option String :=
  match ranges.find? (fun r => isTimeInNormalizedRange (time / 60) r.2.1 r.2.2) with
  | some r => some r.1
  | none => none

/-- One entry of the optimized implementation's pre-classification array. -/
structure Cls where
  burst : Burst
  time : Nat
  shiftCode : Option String
  assigned : Bool
deriving DecidableEq

/-- `classifyBursts` (optimized implementation). -/
def classifyBursts (ranges : List (String × Nat × Nat)) (bursts : List Burst) : List Cls :=
  bursts.map fun b => ⟨b, todOf b.burstStart, findShiftCode ranges (todOf b.burstStart), false⟩

/-- `this.config.shifts[code]!` — the code always comes from the same map,
so the fallback is unreachable. -/
def lookupCfg (shifts : List (String × ShiftConfig)) (code : String) : ShiftConfig :=
  match shifts.find? (fun p => p.1 == code) with
  | some p => p.2
  | none => ⟨0, 0, 0, 0⟩

/-- `calculateActivityWindowEnd` of the optimized implementation: hour 0 or
the designated overnight code `"C"` extends the window to the next day. -/
def calculateActivityWindowEnd (shiftDate : Nat) (shiftCode : String)
    (cfg : ShiftConfig) : Nat :=
  if cfg.checkOutEnd / 3600 = 0 || shiftCode = "C" then shiftDate + 86400 + cfg.checkOutEnd
  else shiftDate + cfg.checkOutEnd

/-- `calculateActivityWindowEnd` of the legacy implementation: only the
overnight code `"C"` extends the window. -/
def calculateActivityWindowEndLegacy (shiftDate : Nat) (shiftCode : String)
    (cfg : ShiftConfig) : Nat :=
  if shiftCode = "C" then shiftDate + 86400 + cfg.checkOutEnd
  else shiftDate + cfg.checkOutEnd

/-- The `atOrAfterCheckoutStart` test of the optimized scan, against the
*current* shift's check-out window (midnight-crossing windows use the
OR-across-midnight form). -/
def atOrAfterCheckoutStart (cfg : ShiftConfig) (time : Nat) : Bool :=
  if cfg.checkOutEnd / 60 < cfg.checkOutStart / 60 then
    cfg.checkOutStart / 60 ≤ time / 60 || time / 60 ≤ cfg.checkOutEnd / 60
  else cfg.checkOutStart / 60 ≤ time / 60

/-- The `isDifferentShift` conjunction of the optimized scan, without its
`j > i` conjunct (which the scan function supplies): the candidate is not in
the current shift's check-out window, is at or after that window's start,
and carries a nominal shift code different from the current one. -/
def stopsInstance (cfg : ShiftConfig) (S : String) (c : Cls) : Bool :=
  !isTimeInRange c.time cfg.checkOutStart cfg.checkOutEnd &&
  atOrAfterCheckoutStart cfg c.time &&
  c.shiftCode.isSome && !(c.shiftCode == some S)

/-- `findLatestCheckOut`'s accumulator loop. -/
def findLatestCheckOutGo (cfg : ShiftConfig) : Option Nat → List Burst → Option Nat
  | latest, [] => latest
  | latest, b :: bs =>
    if isTimeInRange (todOf b.burstEnd) cfg.checkOutStart cfg.checkOutEnd then
      match latest with
      | none => findLatestCheckOutGo cfg (some b.burstEnd) bs
      | some t =>
        if t < b.burstEnd then findLatestCheckOutGo cfg (some b.burstEnd) bs
        else findLatestCheckOutGo cfg (some t) bs
    else findLatestCheckOutGo cfg latest bs

/-- `findLatestCheckOut`: latest burst end whose end time-of-day lies in the
shift's check-out window. -/
def findLatestCheckOut (bursts : List Burst) (cfg : ShiftConfig) : Option Nat :=
  findLatestCheckOutGo cfg none bursts

/-- A `ShiftInstance` (the generated instance id and the user name, which
are not part of any claim, are omitted). -/
structure ShiftInstance where
  shiftCode : String
  shiftDate : Nat
  checkIn : Nat
  checkOut : Option Nat
  bursts : List Burst
deriving DecidableEq

/-- Builds the pushed shift instance (the source guards with
`assignedBursts.length > 0`, so `headD` only ever reads a real head). -/
def mkInstance (S : String) (shiftDate : Nat) (assigned : List Burst)
    (cfg : ShiftConfig) : ShiftInstance :=
  { shiftCode := S, shiftDate,
    checkIn := (assigned.headD ⟨0, 0⟩).burstStart,
    checkOut := findLatestCheckOut assigned cfg,
    bursts := assigned }

/-- Inner loop of the optimized `detectUserShifts`: scan forward from the
opening index `i`, assigning (and flagging) candidates until the activity
window is exceeded or a `j > i` candidate satisfies `isDifferentShift`.
The fuel argument only bounds the structural recursion; any fuel
`≥ cls.length + 1 - j` makes it run to the source's own exit points. -/
def innerScanO (cfg : ShiftConfig) (S : String) (windowEnd i : Nat) :
    Nat → Nat → List Cls → List Burst → List Burst × List Cls
  | 0, _, cls, acc => (acc.reverse, cls)
  | n + 1, j, cls, acc =>
    match cls[j]? with
    | none => (acc.reverse, cls)
    | some c =>
      if windowEnd < c.burst.burstStart then (acc.reverse, cls)
      else if decide (i < j) && stopsInstance cfg S c then (acc.reverse, cls)
      else innerScanO cfg S windowEnd i n (j + 1)
        (cls.set j { c with assigned := true }) (c.burst :: acc)

/-- Outer loop of the optimized `detectUserShifts` (a `for` loop advancing
by one; fuel `cls.length - i` reaches the end of the array). -/
def outerScanO (shifts : List (String × ShiftConfig)) :
    Nat → Nat → List Cls → List ShiftInstance
  | 0, _, _ => []
  | n + 1, i, cls =>
    match cls[i]? with
    | none => []
    | some c =>
      match c.shiftCode with
      | none => outerScanO shifts n (i + 1) cls
      | some S =>
        if c.assigned then outerScanO shifts n (i + 1) cls
        else
          let cfg := lookupCfg shifts S
          let shiftDate := extractDate c.burst.burstStart
          let windowEnd := calculateActivityWindowEnd shiftDate S cfg
          let res := innerScanO cfg S windowEnd i (cls.length + 1) i cls []
          if res.1.isEmpty then outerScanO shifts n (i + 1) res.2
          else mkInstance S shiftDate res.1 cfg :: outerScanO shifts n (i + 1) res.2

/-- The optimized (single-pass, pre-classified, `assigned`-flag)
`ShiftDetector.detectUserShifts`, for one user's burst list. -/
def detectUserShifts (shifts : List (String × ShiftConfig)) (bursts : List Burst) :
    List ShiftInstance :=
  let cls := classifyBursts (checkInRangesOf shifts) bursts
  outerScanO shifts cls.length 0 cls

/-- The legacy scan's `wouldStartDifferentShift` loop over the pre-computed
ranges: some *other* code's check-in range contains the candidate's time. -/
def wouldStartDifferentShift (ranges : List (String × Nat × Nat)) (S : String)
    (time : Nat) : Bool :=
  ranges.any fun r => !(r.1 == S) && isTimeInNormalizedRange (time / 60) r.2.1 r.2.2

/-- Inner `while` of the legacy `detectUserShifts`; returns the assigned
bursts and the final value of `j`. -/
def innerScanL (ranges : List (String × Nat × Nat)) (cfg : ShiftConfig) (S : String)
    (windowEnd i : Nat) (bursts : List Burst) :
    Nat → Nat → List Burst → List Burst × Nat
  | 0, j, acc => (acc.reverse, j)
  | n + 1, j, acc =>
    match bursts[j]? with
    | none => (acc.reverse, j)
    | some b =>
      if b.burstStart ≤ windowEnd then
        if decide (i < j) &&
            !isTimeInRange (todOf b.burstStart) cfg.checkOutStart cfg.checkOutEnd &&
            wouldStartDifferentShift ranges S (todOf b.burstStart) then (acc.reverse, j)
        else innerScanL ranges cfg S windowEnd i bursts n (j + 1) (b :: acc)
      else (acc.reverse, j)

/-- Outer `while` of the legacy `detectUserShifts`.  The source advances
`i` to the inner loop's final `j`; when the opening burst itself lies
outside its activity window that makes no progress and the source loops
forever — the fuel argument then runs out and the model returns the
instances found so far. -/
def outerScanL (shifts : List (String × ShiftConfig))
    (ranges : List (String × Nat × Nat)) (bursts : List Burst) :
    Nat → Nat → List ShiftInstance
  | 0, _ => []
  | m + 1, i =>
    match bursts[i]? with
    | none => []
    | some b =>
      match findShiftCode ranges (todOf b.burstStart) with
      | none => outerScanL shifts ranges bursts m (i + 1)
      | some S =>
        let cfg := lookupCfg shifts S
        let shiftDate := extractDate b.burstStart
        let windowEnd := calculateActivityWindowEndLegacy shiftDate S cfg
        let res := innerScanL ranges cfg S windowEnd i bursts (bursts.length + 1) i []
        let rest := outerScanL shifts ranges bursts m res.2
        if res.1.isEmpty then rest
        else mkInstance S shiftDate res.1 cfg :: rest

/-- The legacy (nested-loop) `ShiftDetector.detectUserShifts`, for one
user's burst list. -/
def detectUserShiftsLegacy (shifts : List (String × ShiftConfig)) (bursts : List Burst) :
    List ShiftInstance :=
  outerScanL shifts (checkInRangesOf shifts) bursts (bursts.length + 1) 0

/-! ### Claims about the deviation/quality evaluator -/

/-- C7: with `checkIn` absent the tolerant policy is immediately terminal:
status `"INVALID - No Check-In"`, exactly one missing entry
`{checkIn, severity high}`, completeness 0, critical quality, review
required — independently of the other three inputs (so no deviation
comparison is performed on them). -/
theorem determineShiftStatusV2_no_checkIn
    (breakOutTime breakInTime checkOutTime : Option String) (cfg : ShiftThresholds) :
    determineShiftStatusV2 "" breakOutTime breakInTime checkOutTime cfg =
      { status := "INVALID - No Check-In"
        missingTimestamps := [⟨.checkIn, cfg.shiftStart, .high⟩]
        requiresReview := true
        completenessPercentage := 0
        dataQuality := .critical } := rfl

/-- Characterization of the non-status fields of `determineShiftStatusV2`
when `checkIn` is present. -/
theorem determineShiftStatusV2_fields
    (checkInTime : String) (breakOutTime breakInTime checkOutTime : Option String)
    (cfg : ShiftThresholds) (hci : ¬ checkInTime = "") :
    (determineShiftStatusV2 checkInTime breakOutTime breakInTime checkOutTime cfg).missingTimestamps
        = missingListV2 breakOutTime breakInTime checkOutTime cfg ∧
    (determineShiftStatusV2 checkInTime breakOutTime breakInTime checkOutTime cfg).completenessPercentage
        = jsRoundPercent (4 - (missingListV2 breakOutTime breakInTime checkOutTime cfg).length) 4 ∧
    (determineShiftStatusV2 checkInTime breakOutTime breakInTime checkOutTime cfg).dataQuality
        = (if jsRoundPercent (4 - (missingListV2 breakOutTime breakInTime checkOutTime cfg).length) 4 = 100
           then .complete
           else if 75 ≤ jsRoundPercent (4 - (missingListV2 breakOutTime breakInTime checkOutTime cfg).length) 4
           then .partialTier else .critical) ∧
    (determineShiftStatusV2 checkInTime breakOutTime breakInTime checkOutTime cfg).requiresReview
        = (if jsRoundPercent (4 - (missingListV2 breakOutTime breakInTime checkOutTime cfg).length) 4 = 100
           then false
           else if 75 ≤ jsRoundPercent (4 - (missingListV2 breakOutTime breakInTime checkOutTime cfg).length) 4
           then (missingListV2 breakOutTime breakInTime checkOutTime cfg).any
                  (fun mt => decide (mt.field = .checkOut))
           else true) := by
  unfold determineShiftStatusV2
  rw [if_neg hci]
  dsimp only
  by_cases h1 : jsRoundPercent (4 - (missingListV2 breakOutTime breakInTime checkOutTime cfg).length) 4 = 100
  · simp [if_pos h1]
  · by_cases h2 : 75 ≤ jsRoundPercent (4 - (missingListV2 breakOutTime breakInTime checkOutTime cfg).length) 4
    · simp [if_neg h1, if_pos h2]
    · simp [if_neg h1, if_neg h2]

/-- Length of the tolerant policy's missing list: one per missing optional
field. -/
theorem missingListV2_length
    (breakOutTime breakInTime checkOutTime : Option String) (cfg : ShiftThresholds) :
    (missingListV2 breakOutTime breakInTime checkOutTime cfg).length =
      (if isNullOrEmpty breakOutTime then 1 else 0) +
      (if isNullOrEmpty breakInTime then 1 else 0) +
      (if isNullOrEmpty checkOutTime then 1 else 0) := by
  simp only [missingListV2]
  cases hbo : isNullOrEmpty breakOutTime <;>
    cases hbi : isNullOrEmpty breakInTime <;>
      cases hco : isNullOrEmpty checkOutTime <;> rfl

/-- The tolerant policy's missing list mentions `checkOut` exactly when
`checkOut` is missing. -/
theorem missingListV2_anyCheckOut
    (breakOutTime breakInTime checkOutTime : Option String) (cfg : ShiftThresholds) :
    (missingListV2 breakOutTime breakInTime checkOutTime cfg).any
        (fun mt => decide (mt.field = .checkOut)) = isNullOrEmpty checkOutTime := by
  simp only [missingListV2]
  cases hbo : isNullOrEmpty breakOutTime <;>
    cases hbi : isNullOrEmpty breakInTime <;>
      cases hco : isNullOrEmpty checkOutTime <;> rfl

/-- C5: with `checkIn` present, the completeness percentage equals
`round((4 - missingCount)/4 · 100)` (written as the exact half-up rounding
`((4-m)·100·2 + 4) / 8`), where `missingCount` counts the missing ones of
`breakOut`, `breakIn`, `checkOut`; and the quality tier is `complete` iff
the percentage is 100, `partial` iff it is at least 75 and below 100, and
`critical` otherwise. -/
theorem completeness_identity_and_tiers
    (checkInTime : String) (breakOutTime breakInTime checkOutTime : Option String)
    (cfg : ShiftThresholds) (hci : checkInTime ≠ "") :
    let r := determineShiftStatusV2 checkInTime breakOutTime breakInTime checkOutTime cfg
    let m := r.missingTimestamps.length
    (m = (if isNullOrEmpty breakOutTime then 1 else 0) +
         (if isNullOrEmpty breakInTime then 1 else 0) +
         (if isNullOrEmpty checkOutTime then 1 else 0)) ∧
    r.completenessPercentage = ((4 - m) * 100 * 2 + 4) / 8 ∧
    (r.dataQuality = .complete ↔ r.completenessPercentage = 100) ∧
    (r.dataQuality = .partialTier ↔
      (75 ≤ r.completenessPercentage ∧ r.completenessPercentage < 100)) ∧
    (r.dataQuality = .critical ↔ r.completenessPercentage < 75) := by
  obtain ⟨hM, hpct, hq, _⟩ :=
    determineShiftStatusV2_fields checkInTime breakOutTime breakInTime checkOutTime cfg hci
  simp only [hM, hpct, hq, jsRoundPercent, missingListV2_length]
  cases hbo : isNullOrEmpty breakOutTime <;>
    cases hbi : isNullOrEmpty breakInTime <;>
      cases hco : isNullOrEmpty checkOutTime <;> decide

/-- Witness for C5 at a concrete input (Scenario B shape: both break fields
missing, 50%, critical). -/
theorem completeness_identity_and_tiers_witness :
    ("06:00:00" : String) ≠ "" ∧
    (let r := determineShiftStatusV2 "06:00:00" none none (some "14:00:00")
        ⟨"06:00:00", "06:05:00", "10:00:00", "10:30:00", "10:35:00", "14:00:00"⟩
     let m := r.missingTimestamps.length
     (m = (if isNullOrEmpty (none : Option String) then 1 else 0) +
          (if isNullOrEmpty (none : Option String) then 1 else 0) +
          (if isNullOrEmpty (some "14:00:00") then 1 else 0)) ∧
     r.completenessPercentage = ((4 - m) * 100 * 2 + 4) / 8 ∧
     (r.dataQuality = .complete ↔ r.completenessPercentage = 100) ∧
     (r.dataQuality = .partialTier ↔
       (75 ≤ r.completenessPercentage ∧ r.completenessPercentage < 100)) ∧
     (r.dataQuality = .critical ↔ r.completenessPercentage < 75)) :=
  ⟨by decide,
   completeness_identity_and_tiers "06:00:00" none none (some "14:00:00")
     ⟨"06:00:00", "06:05:00", "10:00:00", "10:30:00", "10:35:00", "14:00:00"⟩
     (by decide)⟩

/-- C6: `requiresReview` holds exactly when the quality tier is critical or
`checkOut` is among the missing fields; consequently review implies
(`checkIn` missing) ∨ (completeness < 75) ∨ (`checkOut` missing); and a
record at exactly 75% completeness whose missing field is `checkOut` still
requires review. -/
theorem requiresReview_characterization
    (checkInTime : String) (breakOutTime breakInTime checkOutTime : Option String)
    (cfg : ShiftThresholds) :
    let r := determineShiftStatusV2 checkInTime breakOutTime breakInTime checkOutTime cfg
    (r.requiresReview =
      (decide (r.dataQuality = .critical) ||
        r.missingTimestamps.any (fun mt => decide (mt.field = .checkOut)))) ∧
    (r.requiresReview = true →
      (checkInTime = "" ∨ r.completenessPercentage < 75 ∨
        r.missingTimestamps.any (fun mt => decide (mt.field = .checkOut)) = true)) ∧
    (checkInTime ≠ "" → isNullOrEmpty checkOutTime = true →
      isNullOrEmpty breakOutTime = false → isNullOrEmpty breakInTime = false →
      r.completenessPercentage = 75 ∧ r.requiresReview = true) := by
  by_cases hci : checkInTime = ""
  · refine ⟨?_, ?_, ?_⟩
    · subst hci; rfl
    · exact fun _ => Or.inl hci
    · exact fun h => absurd hci h
  · obtain ⟨hM, hpct, hq, hr⟩ :=
      determineShiftStatusV2_fields checkInTime breakOutTime breakInTime checkOutTime cfg hci
    simp only [hM, hpct, hq, hr, jsRoundPercent, missingListV2_length, missingListV2_anyCheckOut]
    cases hbo : isNullOrEmpty breakOutTime <;>
      cases hbi : isNullOrEmpty breakInTime <;>
        cases hco : isNullOrEmpty checkOutTime <;>
          refine ⟨by decide, fun h => ?_, fun _ h2 h3 h4 => ?_⟩ <;>
            first
              | exact absurd h (by decide)
              | exact absurd h2 (by decide)
              | exact absurd h3 (by decide)
              | exact absurd h4 (by decide)
              | exact Or.inr (by decide)
              | decide

/-- Witness for C6 (Scenario C: only `checkOut` missing, 75%, review). -/
theorem requiresReview_characterization_witness :
    let r := determineShiftStatusV2 "06:00:00" (some "10:00:00") (some "10:30:00") none
        ⟨"06:00:00", "06:05:00", "10:00:00", "10:30:00", "10:35:00", "14:00:00"⟩
    (r.requiresReview =
      (decide (r.dataQuality = .critical) ||
        r.missingTimestamps.any (fun mt => decide (mt.field = .checkOut)))) ∧
    (r.requiresReview = true →
      (("06:00:00" : String) = "" ∨ r.completenessPercentage < 75 ∨
        r.missingTimestamps.any (fun mt => decide (mt.field = .checkOut)) = true)) ∧
    (("06:00:00" : String) ≠ "" → isNullOrEmpty (none : Option String) = true →
      isNullOrEmpty (some "10:00:00") = false → isNullOrEmpty (some "10:30:00") = false →
      r.completenessPercentage = 75 ∧ r.requiresReview = true) :=
  requiresReview_characterization "06:00:00" (some "10:00:00") (some "10:30:00") none
    ⟨"06:00:00", "06:05:00", "10:00:00", "10:30:00", "10:35:00", "14:00:00"⟩

/-- A nullable field defaulted to `""` is empty exactly when the tolerant
policy's missing test fires on it. -/
theorem getD_empty_iff (t : Option String) :
    decide (t.getD "" = "") = isNullOrEmpty t := by
  cases t <;> rfl

/-- When `checkIn` is present the tolerant policy's deviation list is the
strict policy's on the `""`-defaulted fields: a missing field is excluded
from comparison, a present one gets the identical threshold test. -/
theorem deviationListV2_eq_strict
    (checkInTime : String) (breakOutTime breakInTime checkOutTime : Option String)
    (cfg : ShiftThresholds) (hci : checkInTime ≠ "") :
    deviationListV2 checkInTime breakOutTime breakInTime checkOutTime cfg =
      deviationList checkInTime (breakOutTime.getD "") (breakInTime.getD "")
        (checkOutTime.getD "") cfg := by
  simp only [deviationListV2, deviationList, decide_not, getD_empty_iff]
  rw [decide_eq_false hci]
  cases hbo : isNullOrEmpty breakOutTime <;>
    cases hbi : isNullOrEmpty breakInTime <;>
      cases hco : isNullOrEmpty checkOutTime <;>
        simp only [Bool.not_false, Bool.not_true, Bool.true_and, Bool.false_and,
          Bool.false_eq_true, eq_self_iff_true, if_true, if_false]

/-- The status string of `determineShiftStatusV2` when `checkIn` is
present, as built by `assembleStatus`. -/
theorem determineShiftStatusV2_status
    (checkInTime : String) (breakOutTime breakInTime checkOutTime : Option String)
    (cfg : ShiftThresholds) (hci : ¬ checkInTime = "") :
    (determineShiftStatusV2 checkInTime breakOutTime breakInTime checkOutTime cfg).status =
      assembleStatus (deviationListV2 checkInTime breakOutTime breakInTime checkOutTime cfg)
        ((missingListV2 breakOutTime breakInTime checkOutTime cfg).map
          (fieldDisplayName ·.field)) := by
  unfold determineShiftStatusV2
  rw [if_neg hci]
  dsimp only
  split
  · rfl
  · split <;> rfl

/-- A mapped list is empty exactly when the original is. -/
theorem isEmpty_map {α β : Type} (f : α → β) (l : List α) :
    (l.map f).isEmpty = l.isEmpty := by
  cases l <;> rfl

/-- C8 counterexample: a whitespace-only `breakOut` value is blank after
trimming, yet the tolerant policy records *no* missing entry for it and
still runs the threshold comparison on it (the whitespace string compares
below the expected time, producing the `Leave Soon Break Out` deviation) —
the module `detectMissingTimestamps`, by contrast, does classify it as
missing. -/
theorem tolerant_blank_after_trim_counterexample :
    jsTrim (" " : String).data = [] ∧
    (determineShiftStatusV2 "06:00:00" (some " ") (some "10:30:00") (some "14:00:00")
        ⟨"06:00:00", "06:05:00", "10:00:00", "10:30:00", "10:35:00", "14:00:00"⟩).missingTimestamps
      = [] ∧
    (determineShiftStatusV2 "06:00:00" (some " ") (some "10:30:00") (some "14:00:00")
        ⟨"06:00:00", "06:05:00", "10:00:00", "10:30:00", "10:35:00", "14:00:00"⟩).status
      = "Leave Soon Break Out" ∧
    detectMissingTimestamps (some "06:00:00") (some " ") (some "10:30:00") (some "14:00:00")
        ⟨"06:00:00", "06:05:00", "10:00:00", "10:30:00", "10:35:00", "14:00:00"⟩
      = [⟨.breakOut, "10:00:00", .low⟩] := by
  refine ⟨rfl, rfl, ?_, rfl⟩
  rfl

/-- C8 (amended): in the tolerant policy a field that is null **or the
empty string** (not: blank after trimming) is recorded as a
`MissingTimestamp` with its fixed severity (breakOut low, breakIn medium,
checkOut high) and excluded from deviation comparison, while any other
value receives exactly the strict policy's threshold comparison — the
status is the strict status of the `""`-defaulted fields followed by the
missing-fields bracket. -/
theorem tolerant_missing_and_threshold_handling
    (checkInTime : String) (breakOutTime breakInTime checkOutTime : Option String)
    (cfg : ShiftThresholds) (hci : checkInTime ≠ "") :
    let r := determineShiftStatusV2 checkInTime breakOutTime breakInTime checkOutTime cfg
    r.missingTimestamps =
      (if isNullOrEmpty breakOutTime then [⟨.breakOut, cfg.breakOutExpectedTime, .low⟩] else []) ++
      (if isNullOrEmpty breakInTime then [⟨.breakIn, cfg.breakEndTime, .medium⟩] else []) ++
      (if isNullOrEmpty checkOutTime then [⟨.checkOut, cfg.checkOutExpectedTime, .high⟩] else []) ∧
    r.status =
      determineShiftStatus checkInTime (breakOutTime.getD "") (breakInTime.getD "")
          (checkOutTime.getD "") cfg ++
        (if (missingListV2 breakOutTime breakInTime checkOutTime cfg).isEmpty then ""
         else " [Missing: " ++
           String.intercalate ", "
             ((missingListV2 breakOutTime breakInTime checkOutTime cfg).map
               (fieldDisplayName ·.field)) ++ "]") := by
  obtain ⟨hM, _, _, _⟩ :=
    determineShiftStatusV2_fields checkInTime breakOutTime breakInTime checkOutTime cfg hci
  refine ⟨hM, ?_⟩
  rw [determineShiftStatusV2_status checkInTime breakOutTime breakInTime checkOutTime cfg hci,
    assembleStatus, deviationListV2_eq_strict checkInTime breakOutTime breakInTime checkOutTime cfg hci,
    determineShiftStatus, isEmpty_map]

/-- Witness for C8 (amended) at a concrete input: `breakOut` missing,
`checkOut` present and early. -/
theorem tolerant_missing_and_threshold_handling_witness :
    ("06:00:00" : String) ≠ "" ∧
    (let r := determineShiftStatusV2 "06:00:00" none (some "10:30:00") (some "13:00:00")
        ⟨"06:00:00", "06:05:00", "10:00:00", "10:30:00", "10:35:00", "14:00:00"⟩
     r.missingTimestamps =
       (if isNullOrEmpty (none : Option String) then
          [⟨.breakOut, ("10:00:00" : String), .low⟩] else []) ++
       (if isNullOrEmpty (some "10:30:00") then [⟨.breakIn, ("10:30:00" : String), .medium⟩] else []) ++
       (if isNullOrEmpty (some "13:00:00") then [⟨.checkOut, ("14:00:00" : String), .high⟩] else []) ∧
     r.status =
       determineShiftStatus "06:00:00" ((none : Option String).getD "")
           ((some "10:30:00").getD "") ((some "13:00:00").getD "")
           ⟨"06:00:00", "06:05:00", "10:00:00", "10:30:00", "10:35:00", "14:00:00"⟩ ++
         (if (missingListV2 none (some "10:30:00") (some "13:00:00")
              ⟨"06:00:00", "06:05:00", "10:00:00", "10:30:00", "10:35:00", "14:00:00"⟩).isEmpty then ""
          else " [Missing: " ++
            String.intercalate ", "
              ((missingListV2 none (some "10:30:00") (some "13:00:00")
                ⟨"06:00:00", "06:05:00", "10:00:00", "10:30:00", "10:35:00", "14:00:00"⟩).map
                (fieldDisplayName ·.field)) ++ "]")) :=
  ⟨by decide,
   tolerant_missing_and_threshold_handling "06:00:00" none (some "10:30:00") (some "13:00:00")
     ⟨"06:00:00", "06:05:00", "10:00:00", "10:30:00", "10:35:00", "14:00:00"⟩ (by decide)⟩

/-- The v2 status string as a function of the seven booleans that determine
it: the four threshold comparisons and the three missing flags. -/
def buildStatusV2 (b1 b2 b3 b4 m1 m2 m3 : Bool) : String :=
  assembleStatus
    ((if b1 then ["Late Check-in"] else []) ++
     (if m1 then [] else if b2 then ["Leave Soon Break Out"] else []) ++
     (if m2 then [] else if b3 then ["Late Break In"] else []) ++
     (if m3 then [] else if b4 then ["Leave Soon Check Out"] else []))
    ((if m1 then ["Break Out"] else []) ++
     (if m2 then ["Break In"] else []) ++
     (if m3 then ["Check Out"] else []))

/-- The display names of the missing list. -/
theorem missingListV2_map_display
    (breakOutTime breakInTime checkOutTime : Option String) (cfg : ShiftThresholds) :
    (missingListV2 breakOutTime breakInTime checkOutTime cfg).map (fieldDisplayName ·.field) =
      (if isNullOrEmpty breakOutTime then ["Break Out"] else []) ++
      (if isNullOrEmpty breakInTime then ["Break In"] else []) ++
      (if isNullOrEmpty checkOutTime then ["Check Out"] else []) := by
  simp only [missingListV2]
  cases hbo : isNullOrEmpty breakOutTime <;>
    cases hbi : isNullOrEmpty breakInTime <;>
      cases hco : isNullOrEmpty checkOutTime <;> rfl

/-- The v2 status is `buildStatusV2` of its seven determining booleans. -/
theorem determineShiftStatusV2_status_as_bools
    (checkInTime : String) (breakOutTime breakInTime checkOutTime : Option String)
    (cfg : ShiftThresholds) (hci : ¬ checkInTime = "") :
    (determineShiftStatusV2 checkInTime breakOutTime breakInTime checkOutTime cfg).status =
      buildStatusV2
        (strGe checkInTime cfg.checkInLateThreshold)
        (strLt (breakOutTime.getD "") cfg.breakOutExpectedTime)
        (strGe (breakInTime.getD "") cfg.breakInLateThreshold)
        (strLt (checkOutTime.getD "") cfg.checkOutExpectedTime)
        (isNullOrEmpty breakOutTime) (isNullOrEmpty breakInTime)
        (isNullOrEmpty checkOutTime) := by
  rw [determineShiftStatusV2_status checkInTime breakOutTime breakInTime checkOutTime cfg hci,
    buildStatusV2, missingListV2_map_display]
  rfl

set_option maxHeartbeats 4000000 in
/-- Exhaustive round trip over the canonical label set: `parseDeviations`
recovers each of the seven booleans from the assembled status string. -/
theorem parse_roundtrip_bool (b1 b2 b3 b4 m1 m2 m3 : Bool) :
    parseDeviations (buildStatusV2 b1 b2 b3 b4 m1 m2 m3) =
      ⟨b1, !m1 && b2, !m2 && b3, !m3 && b4, m1 || m2 || m3⟩ := by
  revert b1 b2 b3 b4 m1 m2 m3
  decide

/-- C9: round-trip stability — on every status the tolerant evaluator
produces with `checkIn` present, `parseDeviations` sets each deviation flag
iff the corresponding label was triggered (field present and past its
threshold), and sets `hasMissingTimestamps` iff the status carries a
`[Missing: …]` bracket, i.e. iff at least one optional field was missing. -/
theorem parse_roundtrip_stability
    (checkInTime : String) (breakOutTime breakInTime checkOutTime : Option String)
    (cfg : ShiftThresholds) (hci : checkInTime ≠ "") :
    parseDeviations
        ((determineShiftStatusV2 checkInTime breakOutTime breakInTime checkOutTime cfg).status) =
      { checkInLate := strGe checkInTime cfg.checkInLateThreshold
        breakOutEarly := !isNullOrEmpty breakOutTime &&
          strLt (breakOutTime.getD "") cfg.breakOutExpectedTime
        breakInLate := !isNullOrEmpty breakInTime &&
          strGe (breakInTime.getD "") cfg.breakInLateThreshold
        checkOutEarly := !isNullOrEmpty checkOutTime &&
          strLt (checkOutTime.getD "") cfg.checkOutExpectedTime
        hasMissingTimestamps := isNullOrEmpty breakOutTime || isNullOrEmpty breakInTime ||
          isNullOrEmpty checkOutTime } := by
  rw [determineShiftStatusV2_status_as_bools checkInTime breakOutTime breakInTime checkOutTime
      cfg hci, parse_roundtrip_bool]

/-- Witness for C9: late check-in, missing break-out, early check-out. -/
theorem parse_roundtrip_stability_witness :
    ("06:10:00" : String) ≠ "" ∧
    parseDeviations
        ((determineShiftStatusV2 "06:10:00" none (some "10:40:00") (some "13:00:00")
          ⟨"06:00:00", "06:05:00", "10:00:00", "10:30:00", "10:35:00", "14:00:00"⟩).status) =
      { checkInLate := strGe "06:10:00" "06:05:00"
        breakOutEarly := !isNullOrEmpty (none : Option String) &&
          strLt ((none : Option String).getD "") "10:00:00"
        breakInLate := !isNullOrEmpty (some "10:40:00") && strGe ((some "10:40:00").getD "") "10:35:00"
        checkOutEarly := !isNullOrEmpty (some "13:00:00") && strLt ((some "13:00:00").getD "") "14:00:00"
        hasMissingTimestamps := isNullOrEmpty (none : Option String) ||
          isNullOrEmpty (some "10:40:00") || isNullOrEmpty (some "13:00:00") } :=
  ⟨by decide,
   parse_roundtrip_stability "06:10:00" none (some "10:40:00") (some "13:00:00")
     ⟨"06:00:00", "06:05:00", "10:00:00", "10:30:00", "10:35:00", "14:00:00"⟩ (by decide)⟩

/-! ### Claims about `getMissedPunch` -/

/-- `chStartsWith` means the pattern is a literal prefix. -/
theorem chStartsWith_iff (p l : List Char) :
    chStartsWith p l = true ↔ ∃ t, l = p ++ t := by
  induction p generalizing l with
  | nil => simp [chStartsWith]
  | cons a as ih =>
    cases l with
    | nil => simp [chStartsWith]
    | cons b bs =>
      simp only [chStartsWith, Bool.and_eq_true, beq_iff_eq, ih, List.cons_append,
        List.cons.injEq]
      constructor
      · rintro ⟨rfl, t, rfl⟩; exact ⟨t, rfl, rfl⟩
      · rintro ⟨t, rfl, rfl⟩; exact ⟨rfl, t, rfl⟩

/-- A pattern matches at the start of `p ++ t`. -/
theorem chStartsWith_append_self (p t : List Char) :
    chStartsWith p (p ++ t) = true :=
  (chStartsWith_iff p (p ++ t)).mpr ⟨t, rfl⟩

/-- If the pattern matches somewhere in the tail, `chContains` finds it. -/
theorem chContains_append_right (pat pre rest : List Char)
    (h : chStartsWith pat rest = true) : chContains pat (pre ++ rest) = true := by
  induction pre with
  | nil =>
    cases rest with
    | nil =>
      obtain ⟨t, ht⟩ := (chStartsWith_iff pat []).mp h
      rcases List.append_eq_nil.mp ht.symm with ⟨rfl, rfl⟩
      rfl
    | cons c cs => simpa [chContains] using Or.inl h
  | cons c cs ih => simpa [chContains] using Or.inr ih

/-- `takeWhile` stops exactly at the first failing element. -/
theorem takeWhile_middle (q : Char → Bool) (xs : List Char) (y : Char) (ys : List Char)
    (hxs : ∀ x ∈ xs, q x = true) (hy : q y = false) :
    (xs ++ y :: ys).takeWhile q = xs := by
  induction xs with
  | nil => simp [List.takeWhile_cons, hy]
  | cons a as ih =>
    have ha := hxs a (List.mem_cons_self a as)
    simp only [List.cons_append, List.takeWhile_cons, ha, if_true]
    rw [ih (fun x hx => hxs x (List.mem_cons_of_mem a hx))]

/-- `takeWhile` keeps a list all of whose elements satisfy the predicate. -/
theorem takeWhile_all (q : Char → Bool) (l : List Char)
    (h : ∀ x ∈ l, q x = true) : l.takeWhile q = l := by
  induction l with
  | nil => rfl
  | cons a as ih =>
    simp only [List.takeWhile_cons, h a (List.mem_cons_self a as), if_true]
    rw [ih (fun x hx => h x (List.mem_cons_of_mem a hx))]

/-- The first element `dropWhile` keeps fails the predicate. -/
theorem dropWhile_head_false (q : Char → Bool) (l : List Char) (y : Char) (ys : List Char)
    (h : l.dropWhile q = y :: ys) : q y = false := by
  induction l with
  | nil => exact absurd h (by simp)
  | cons a as ih =>
    rw [List.dropWhile_cons] at h
    by_cases hq : q a = true
    · rw [if_pos hq] at h; exact ih h
    · rw [if_neg hq] at h
      cases h
      exact Bool.not_eq_true _ ▸ (Bool.eq_false_iff.mpr hq)

/-- One unfolding step of `findMissingSegment`. -/
theorem findMissingSegment_cons (c : Char) (cs : List Char) :
    findMissingSegment (c :: cs) =
      if chStartsWith missingOpener (c :: cs) then
        if (((c :: cs).drop missingOpener.length).takeWhile (fun ch => decide (ch ≠ ']'))).length ≠ 0 &&
            (((c :: cs).drop missingOpener.length).takeWhile (fun ch => decide (ch ≠ ']'))).length <
              ((c :: cs).drop missingOpener.length).length then
          some (((c :: cs).drop missingOpener.length).takeWhile (fun ch => decide (ch ≠ ']')))
        else findMissingSegment cs
      else findMissingSegment cs := rfl

/-- At an occurrence of the full opener with non-empty `]`-free content and
a closer, `findMissingSegment` captures exactly the content. -/
theorem findMissingSegment_opener (content post : List Char)
    (hc : content ≠ []) (hcr : ']' ∉ content) :
    findMissingSegment (missingOpener ++ content ++ ']' :: post) = some content := by
  have hshape : missingOpener ++ content ++ ']' :: post =
      '[' :: ("Missing: ".data ++ (content ++ ']' :: post)) := by
    rw [List.append_assoc]; rfl
  have hdrop : (missingOpener ++ (content ++ ']' :: post)).drop missingOpener.length =
      content ++ ']' :: post := List.drop_left _ _
  have htake : (content ++ ']' :: post).takeWhile (fun ch => decide (ch ≠ ']')) = content :=
    takeWhile_middle _ content ']' post
      (fun x hx => decide_eq_true (fun hx' => hcr (hx' ▸ hx)))
      (by decide)
  rw [hshape, findMissingSegment_cons]
  rw [show ('[' :: ("Missing: ".data ++ (content ++ ']' :: post))) =
      missingOpener ++ (content ++ ']' :: post) from rfl]
  rw [if_pos (chStartsWith_append_self missingOpener (content ++ ']' :: post)),
    hdrop, htake]
  have hlen1 : content.length ≠ 0 := fun h => hc (List.length_eq_zero.mp h)
  have hlen2 : content.length < (content ++ ']' :: post).length := by
    rw [List.length_append, List.length_cons]; omega
  rw [if_pos (by simp only [Bool.and_eq_true, decide_eq_true_eq]; exact ⟨hlen1, hlen2⟩)]

/-- Scanning over a prefix that contains no `'['` cannot match the opener,
so `findMissingSegment` finds the first well-formed occurrence after it. -/
theorem findMissingSegment_wf (pre content post : List Char)
    (hpre : '[' ∉ pre) (hc : content ≠ []) (hcr : ']' ∉ content) :
    findMissingSegment (pre ++ missingOpener ++ content ++ ']' :: post) = some content := by
  induction pre with
  | nil => rw [List.nil_append]; exact findMissingSegment_opener content post hc hcr
  | cons a pre' ih =>
    have ha : ¬ ('[' = a) := fun h => hpre (h ▸ List.mem_cons_self a pre')
    have hpre' : '[' ∉ pre' := fun h => hpre (List.mem_cons_of_mem a h)
    have hsw : chStartsWith missingOpener
        (a :: (pre' ++ missingOpener ++ content ++ ']' :: post)) = false := by
      rw [show missingOpener = '[' :: "Missing: ".data from rfl]
      show (('[' : Char) == a && _) = false
      simp [ha]
    show findMissingSegment (a :: (pre' ++ missingOpener ++ content ++ ']' :: post)) = _
    rw [findMissingSegment_cons]
    simp only [hsw, Bool.false_eq_true, if_false]
    exact ih hpre'

/-- Without any `']'` in the input there is no match. -/
theorem findMissingSegment_no_closer (l : List Char) (h : ']' ∉ l) :
    findMissingSegment l = none := by
  induction l with
  | nil => rfl
  | cons c cs ih =>
    have hcs : ']' ∉ cs := fun hm => h (List.mem_cons_of_mem c hm)
    rw [findMissingSegment_cons]
    by_cases hsw : chStartsWith missingOpener (c :: cs) = true
    · have hall : ((c :: cs).drop missingOpener.length).takeWhile
          (fun ch => decide (ch ≠ ']')) = (c :: cs).drop missingOpener.length :=
        takeWhile_all _ _ (fun x hx =>
          decide_eq_true (fun hx' => h (hx' ▸ List.drop_subset _ _ hx)))
      rw [if_pos hsw, hall]
      simp only [lt_irrefl, and_false, Bool.and_eq_true, decide_eq_true_eq]
      rw [if_neg (by simp)]
      exact ih hcs
    · rw [if_neg hsw]
      exact ih hcs

/-- A successful match exposes the opener, a non-empty `]`-free capture and
its closer in the input. -/
theorem findMissingSegment_some_struct (l seg : List Char)
    (h : findMissingSegment l = some seg) :
    ∃ pre post, l = pre ++ missingOpener ++ seg ++ ']' :: post ∧ seg ≠ [] ∧ ']' ∉ seg := by
  induction l with
  | nil => exact absurd h (by simp [findMissingSegment])
  | cons c cs ih =>
    rw [findMissingSegment_cons] at h
    by_cases hsw : chStartsWith missingOpener (c :: cs) = true
    · rw [if_pos hsw] at h
      set rest := (c :: cs).drop missingOpener.length with hrest
      set content := rest.takeWhile (fun ch => decide (ch ≠ ']')) with hcontent
      by_cases hcond : (content.length ≠ 0 && content.length < rest.length) = true
      · rw [if_pos hcond] at h
        have hcs2 : content = seg := Option.some.inj h
        subst hcs2
        obtain ⟨t, ht⟩ := (chStartsWith_iff missingOpener (c :: cs)).mp hsw
        have hteq : rest = t := by rw [hrest, ht, List.drop_left]
        have h1 : content.length ≠ 0 := by
          have := (Bool.and_eq_true _ _ ▸ hcond).1
          simpa using this
        have h2 : content.length < rest.length := by
          have := (Bool.and_eq_true _ _ ▸ hcond).2
          simpa using this
        have hne : content ≠ [] := fun hnil => h1 (by rw [hnil]; rfl)
        have hmem : ']' ∉ content := fun hm => by
          have := List.mem_takeWhile_imp (hcontent ▸ hm)
          simp at this
        have hsplit : rest = content ++ rest.dropWhile (fun ch => decide (ch ≠ ']')) := by
          rw [hcontent]
          exact (List.takeWhile_append_dropWhile (fun ch => decide (ch ≠ ']')) rest).symm
        have hdw : rest.dropWhile (fun ch => decide (ch ≠ ']')) ≠ [] := by
          intro hnil
          rw [hnil, List.append_nil] at hsplit
          rw [← hsplit] at h2
          exact lt_irrefl _ h2
        obtain ⟨y, ys, hys⟩ := List.exists_cons_of_ne_nil hdw
        have hy : (fun ch => decide (ch ≠ ']')) y = false :=
          dropWhile_head_false _ rest y ys hys
        have hy' : y = ']' := by simpa using hy
        refine ⟨[], ys, ?_, hne, hmem⟩
        rw [List.nil_append, ht, ← hteq, hsplit, hys, hy']
        simp [List.append_assoc]
      · rw [if_neg hcond] at h
        obtain ⟨pre', post', hl, hne, hmem⟩ := ih h
        exact ⟨c :: pre', post', by rw [hl]; rfl, hne, hmem⟩
    · rw [if_neg hsw] at h
      obtain ⟨pre', post', hl, hne, hmem⟩ := ih h
      exact ⟨c :: pre', post', by rw [hl]; rfl, hne, hmem⟩

/-- C10: `getMissedPunch` (i) returns a non-empty result only when the
literal `[Missing: ` opener occurs with a matching `]` closer around a
non-empty segment; (ii) on such a well-formed status (first occurrence)
it splits the segment on commas, trims each token, maps `Check In → CI`,
`Check Out → CO`, `Break Out → BTO`, `Break In → BTI` and passes
unrecognized tokens through unchanged; (iii) with no `]` closer anywhere,
or without the `[Missing:` literal, it returns the empty result — it is a
total function, so it never throws. -/
theorem getMissedPunch_spec (s : String) :
    (getMissedPunch s ≠ "" →
      strIncludes s "[Missing:" = true ∧
      ∃ pre content post, s.data = pre ++ missingOpener ++ content ++ ']' :: post ∧
        content ≠ [] ∧ ']' ∉ content) ∧
    (∀ pre content post, s.data = pre ++ missingOpener ++ content ++ ']' :: post →
      '[' ∉ pre → content ≠ [] → ']' ∉ content →
      getMissedPunch s = String.intercalate ", "
        ((splitCommas content).map (fun t => abbreviateItem (String.mk (jsTrim t))))) ∧
    (']' ∉ s.data → getMissedPunch s = "") ∧
    (strIncludes s "[Missing:" = false → getMissedPunch s = "") := by
  refine ⟨?_, ?_, ?_, ?_⟩
  · intro hne
    by_cases hg : strIncludes s "[Missing:" = true
    · refine ⟨hg, ?_⟩
      cases hseg : findMissingSegment s.data with
      | none => exact absurd (by simp [getMissedPunch, hg, hseg]) hne
      | some seg =>
        obtain ⟨pre, post, hl, hs1, hs2⟩ := findMissingSegment_some_struct s.data seg hseg
        exact ⟨pre, seg, post, hl, hs1, hs2⟩
    · exact absurd (by simp [getMissedPunch, Bool.not_eq_true _ ▸ hg]) hne
  · intro pre content post hdata hpre hc hcr
    have hstarts : chStartsWith "[Missing:".data
        (missingOpener ++ (content ++ ']' :: post)) = true := by
      refine (chStartsWith_iff _ _).mpr ⟨' ' :: (content ++ ']' :: post), ?_⟩
      rw [show missingOpener = "[Missing:".data ++ [' '] from rfl, List.append_assoc]
      rfl
    have hg : strIncludes s "[Missing:" = true := by
      rw [strIncludes, hdata, List.append_assoc, List.append_assoc]
      exact chContains_append_right _ pre _ hstarts
    have hfind : findMissingSegment s.data = some content := by
      rw [hdata]
      exact findMissingSegment_wf pre content post hpre hc hcr
    simp [getMissedPunch, hg, hfind]
  · intro hmem
    have hfind := findMissingSegment_no_closer s.data hmem
    simp [getMissedPunch, hfind]
  · intro hg
    simp [getMissedPunch, hg]

set_option maxHeartbeats 1000000 in
/-- Witness for C10: a status with all four known field names plus an
unrecognized token, and a bracketless status. -/
theorem getMissedPunch_spec_witness :
    (("On Time [Missing: Check In, Check Out, Break Out, Break In, Foo]" : String).data =
        ("On Time " : String).data ++ missingOpener ++
          ("Check In, Check Out, Break Out, Break In, Foo" : String).data ++ ']' :: [] ∧
      '[' ∉ ("On Time " : String).data ∧
      ("Check In, Check Out, Break Out, Break In, Foo" : String).data ≠ [] ∧
      ']' ∉ ("Check In, Check Out, Break Out, Break In, Foo" : String).data) ∧
    getMissedPunch "On Time [Missing: Check In, Check Out, Break Out, Break In, Foo]" =
      "CI, CO, BTO, BTI, Foo" ∧
    getMissedPunch "On Time" = "" := by
  refine ⟨⟨by decide, by decide, by decide, by decide⟩, ?_, ?_⟩
  · rw [(getMissedPunch_spec "On Time [Missing: Check In, Check Out, Break Out, Break In, Foo]").2.1
      ("On Time " : String).data ("Check In, Check Out, Break Out, Break In, Foo" : String).data []
      (by decide) (by decide) (by decide) (by decide)]
    decide
  · exact (getMissedPunch_spec "On Time").2.2.2 (by decide)

/-! ### Claims about the shift detector -/

/-- Example configuration: morning shift A (check-in 05:30–06:35, check-out
16:30–17:30) and afternoon shift B (check-in 13:00–14:05, check-out
21:30–22:30), with all times as seconds-of-day. -/
def cfgMorningEx : ShiftConfig := ⟨19800, 23700, 59400, 63000⟩

def cfgAfternoonEx : ShiftConfig := ⟨46800, 50700, 77400, 81000⟩

def shiftsABEx : List (String × ShiftConfig) := [("A", cfgMorningEx), ("B", cfgAfternoonEx)]

/-- Two bursts of one user: 06:00 (a morning check-in) and 13:30 (nominally
an afternoon check-in, well before A's check-out window). -/
def burstsABEx : List Burst := [⟨21600, 21660⟩, ⟨48600, 48660⟩]

/-- C2 counterexample: on `burstsABEx` the optimized classifier keeps the
13:30 burst in the open morning instance (it is before A's check-out-window
start), while the legacy classifier closes the morning instance there and
opens an afternoon instance — the two produce different instance lists. -/
theorem detectUserShifts_ne_legacy_counterexample :
    detectUserShifts shiftsABEx burstsABEx =
      [⟨"A", 0, 21600, none, [⟨21600, 21660⟩, ⟨48600, 48660⟩]⟩] ∧
    detectUserShiftsLegacy shiftsABEx burstsABEx =
      [⟨"A", 0, 21600, none, [⟨21600, 21660⟩]⟩, ⟨"B", 0, 48600, none, [⟨48600, 48660⟩]⟩] ∧
    detectUserShifts shiftsABEx burstsABEx ≠ detectUserShiftsLegacy shiftsABEx burstsABEx :=
  ⟨by decide, by decide, by decide⟩

/-- Example configuration for C1: shift B with check-in 23:00–23:20 and
check-out 23:30–23:45; overnight shift C with check-in 21:00–22:35 and
check-out 05:30–06:35. -/
def cfgLateEx : ShiftConfig := ⟨82800, 84000, 84600, 85500⟩

def cfgNightEx : ShiftConfig := ⟨75600, 81300, 19800, 23700⟩

def shiftsBCEx : List (String × ShiftConfig) := [("B", cfgLateEx), ("C", cfgNightEx)]

/-- One user: a night check-in at 21:30 and a candidate at 23:10 whose
nominal code is B. -/
def burstsBCEx : List Burst := [⟨77400, 77460⟩, ⟨83400, 83460⟩]

/-- C1 counterexample: the 23:10 candidate has nominal code B ≠ C, lies
inside C's activity window and outside C's check-out window, and is
*before B's own check-out-window start* (23:30) — so the claim's
characterization (compare against the candidate shift T's window) says the
candidate must be assigned to the open C instance.  The code compares
against the *current* shift C's check-out-window start (05:30) instead,
closes the C instance at the candidate and opens a separate B instance. -/
theorem stop_uses_current_shift_window_counterexample :
    findShiftCode (checkInRangesOf shiftsBCEx) (todOf 83400) = some "B" ∧
    (83400 : Nat) ≤ calculateActivityWindowEnd (extractDate 77400) "C" cfgNightEx ∧
    isTimeInRange (todOf 83400) cfgNightEx.checkOutStart cfgNightEx.checkOutEnd = false ∧
    atOrAfterCheckoutStart cfgLateEx 83400 = false ∧
    atOrAfterCheckoutStart cfgNightEx 83400 = true ∧
    detectUserShifts shiftsBCEx burstsBCEx =
      [⟨"C", 0, 77400, none, [⟨77400, 77460⟩]⟩, ⟨"B", 0, 83400, none, [⟨83400, 83460⟩]⟩] :=
  ⟨by decide, by decide, by decide, by decide, by decide, by decide⟩

/-- `findLatestCheckOutGo` returns `none` iff it started with `none` and no
burst end falls in the check-out window. -/
theorem findLatestCheckOutGo_none_iff (cfg : ShiftConfig) (l : List Burst) :
    ∀ acc, findLatestCheckOutGo cfg acc l = none ↔
      (acc = none ∧ ∀ b ∈ l,
        isTimeInRange (todOf b.burstEnd) cfg.checkOutStart cfg.checkOutEnd = false) := by
  induction l with
  | nil => intro acc; simp [findLatestCheckOutGo]
  | cons b bs ih =>
    intro acc
    by_cases hq : isTimeInRange (todOf b.burstEnd) cfg.checkOutStart cfg.checkOutEnd = true
    · cases acc with
      | none =>
        simp only [findLatestCheckOutGo, hq, if_true, ih]
        simp [hq]
      | some t =>
        by_cases hlt : t < b.burstEnd <;>
          simp [findLatestCheckOutGo, hq, hlt, ih]
    · have hq' : isTimeInRange (todOf b.burstEnd) cfg.checkOutStart cfg.checkOutEnd = false :=
        Bool.not_eq_true _ ▸ hq
      simp only [findLatestCheckOutGo, hq', Bool.false_eq_true, if_false, ih]
      simp [hq']

/-- `findLatestCheckOutGo`'s `some` result is the accumulator or a
qualifying burst end, and it bounds the accumulator and every qualifying
burst end from above. -/
theorem findLatestCheckOutGo_some_spec (cfg : ShiftConfig) (l : List Burst) :
    ∀ acc t, findLatestCheckOutGo cfg acc l = some t →
      (acc = some t ∨ (t ∈ l.map (·.burstEnd) ∧
        isTimeInRange (todOf t) cfg.checkOutStart cfg.checkOutEnd = true)) ∧
      (∀ b ∈ l, isTimeInRange (todOf b.burstEnd) cfg.checkOutStart cfg.checkOutEnd = true →
        b.burstEnd ≤ t) ∧
      (∀ a, acc = some a → a ≤ t) := by
  induction l with
  | nil =>
    intro acc t h
    simp only [findLatestCheckOutGo] at h
    subst h
    exact ⟨Or.inl rfl, by simp, fun a ha => le_of_eq (Option.some.inj ha).symm⟩
  | cons b bs ih =>
    intro acc t h
    by_cases hq : isTimeInRange (todOf b.burstEnd) cfg.checkOutStart cfg.checkOutEnd = true
    · cases acc with
      | none =>
        rw [show findLatestCheckOutGo cfg none (b :: bs) =
            findLatestCheckOutGo cfg (some b.burstEnd) bs by
          simp [findLatestCheckOutGo, hq]] at h
        obtain ⟨hsrc, hub, hacc⟩ := ih (some b.burstEnd) t h
        have hbt : b.burstEnd ≤ t := hacc _ rfl
        refine ⟨?_, ?_, by simp⟩
        · rcases hsrc with heq | ⟨hm, hr⟩
          · exact Or.inr ⟨by simp [← Option.some.inj heq], by rw [← Option.some.inj heq]; exact hq⟩
          · exact Or.inr ⟨by simp [hm], hr⟩
        · intro b' hb' hq'
          rcases hb' with _ | hb'
          · exact hbt
          · exact hub b' (by assumption) hq'
      | some a =>
        by_cases hlt : a < b.burstEnd
        · rw [show findLatestCheckOutGo cfg (some a) (b :: bs) =
              findLatestCheckOutGo cfg (some b.burstEnd) bs by
            simp [findLatestCheckOutGo, hq, hlt]] at h
          obtain ⟨hsrc, hub, hacc⟩ := ih (some b.burstEnd) t h
          have hbt : b.burstEnd ≤ t := hacc _ rfl
          refine ⟨?_, ?_, ?_⟩
          · rcases hsrc with heq | ⟨hm, hr⟩
            · exact Or.inr ⟨by simp [← Option.some.inj heq],
                by rw [← Option.some.inj heq]; exact hq⟩
            · exact Or.inr ⟨by simp [hm], hr⟩
          · intro b' hb' hq'
            rcases hb' with _ | hb'
            · exact hbt
            · exact hub b' (by assumption) hq'
          · intro x hx
            exact le_trans (le_of_lt (Option.some.inj hx ▸ hlt)) hbt
        · rw [show findLatestCheckOutGo cfg (some a) (b :: bs) =
              findLatestCheckOutGo cfg (some a) bs by
            simp [findLatestCheckOutGo, hq, hlt]] at h
          obtain ⟨hsrc, hub, hacc⟩ := ih (some a) t h
          have hat : a ≤ t := hacc _ rfl
          refine ⟨?_, ?_, ?_⟩
          · rcases hsrc with heq | ⟨hm, hr⟩
            · exact Or.inl heq
            · exact Or.inr ⟨by simp [hm], hr⟩
          · intro b' hb' hq'
            rcases hb' with _ | hb'
            · exact le_trans (Nat.le_of_not_lt hlt) hat
            · exact hub b' (by assumption) hq'
          · intro x hx
            exact Option.some.inj hx ▸ hat
    · have hq' : isTimeInRange (todOf b.burstEnd) cfg.checkOutStart cfg.checkOutEnd = false :=
        Bool.not_eq_true _ ▸ hq
      rw [show findLatestCheckOutGo cfg acc (b :: bs) = findLatestCheckOutGo cfg acc bs by
        simp [findLatestCheckOutGo, hq']] at h
      obtain ⟨hsrc, hub, hacc⟩ := ih acc t h
      refine ⟨?_, ?_, hacc⟩
      · rcases hsrc with heq | ⟨hm, hr⟩
        · exact Or.inl heq
        · exact Or.inr ⟨by simp [hm], hr⟩
      · intro b' hb' hq2
        rcases hb' with _ | hb'
        · rw [hq'] at hq2; exact absurd hq2 (by simp)
        · exact hub b' (by assumption) hq2

/-- Every instance the optimized outer scan pushes carries
`checkOut = findLatestCheckOut` of its own assigned bursts under its own
shift's configuration. -/
theorem outerScanO_checkOut (shifts : List (String × ShiftConfig)) :
    ∀ n i cls inst, inst ∈ outerScanO shifts n i cls →
      inst.checkOut = findLatestCheckOut inst.bursts (lookupCfg shifts inst.shiftCode) := by
  intro n
  induction n with
  | zero => intro i cls inst h; exact absurd h (by simp [outerScanO])
  | succ n ih =>
    intro i cls inst h
    rw [outerScanO] at h
    split at h
    · exact absurd h (by simp)
    · rename_i c heq
      cases hcode : c.shiftCode with
      | none => rw [hcode] at h; exact ih _ _ _ h
      | some S =>
        rw [hcode] at h
        dsimp only at h
        split at h
        · exact ih _ _ _ h
        · split at h
          · exact ih _ _ _ h
          · rcases List.mem_cons.mp h with heq2 | hmem
            · subst heq2; rfl
            · exact ih _ _ _ hmem

/-- C4: for every instance the optimized classifier creates, `checkOut` is
absent exactly when no assigned burst's end time-of-day lies in the shift's
check-out window (membership uses the midnight-crossing test built into
`isTimeInRange`), and when present it is an assigned burst's end that lies
in that window and bounds every other qualifying assigned end — in
particular it is never the activity-window boundary unless that is itself
an assigned burst end. -/
theorem shiftInstance_checkOut_spec (shifts : List (String × ShiftConfig))
    (bursts : List Burst) (inst : ShiftInstance)
    (hmem : inst ∈ detectUserShifts shifts bursts) :
    (inst.checkOut = none ↔ ∀ b ∈ inst.bursts,
      isTimeInRange (todOf b.burstEnd) (lookupCfg shifts inst.shiftCode).checkOutStart
        (lookupCfg shifts inst.shiftCode).checkOutEnd = false) ∧
    (∀ t, inst.checkOut = some t →
      t ∈ inst.bursts.map (·.burstEnd) ∧
      isTimeInRange (todOf t) (lookupCfg shifts inst.shiftCode).checkOutStart
        (lookupCfg shifts inst.shiftCode).checkOutEnd = true ∧
      ∀ b ∈ inst.bursts,
        isTimeInRange (todOf b.burstEnd) (lookupCfg shifts inst.shiftCode).checkOutStart
          (lookupCfg shifts inst.shiftCode).checkOutEnd = true → b.burstEnd ≤ t) := by
  have hco := outerScanO_checkOut shifts _ 0 _ inst hmem
  constructor
  · rw [hco, findLatestCheckOut, findLatestCheckOutGo_none_iff]
    simp
  · intro t ht
    rw [hco, findLatestCheckOut] at ht
    obtain ⟨hsrc, hub, _⟩ := findLatestCheckOutGo_some_spec _ _ none t ht
    rcases hsrc with heq | ⟨hm, hr⟩
    · exact absurd heq (by simp)
    · exact ⟨hm, hr, hub⟩

/-- Witness for C4: a night-shift instance whose second burst ends inside
the 05:30–06:35 check-out window the next morning. -/
theorem shiftInstance_checkOut_spec_witness :
    (⟨"C", 0, 77400, some 106860, [⟨77400, 77460⟩, ⟨106800, 106860⟩]⟩ : ShiftInstance) ∈
      detectUserShifts shiftsBCEx [⟨77400, 77460⟩, ⟨106800, 106860⟩] ∧
    ((some 106860 = (none : Option Nat) ↔ ∀ b ∈ [(⟨77400, 77460⟩ : Burst), ⟨106800, 106860⟩],
      isTimeInRange (todOf b.burstEnd) (lookupCfg shiftsBCEx "C").checkOutStart
        (lookupCfg shiftsBCEx "C").checkOutEnd = false) ∧
    (∀ t, (some 106860 : Option Nat) = some t →
      t ∈ [(⟨77400, 77460⟩ : Burst), ⟨106800, 106860⟩].map (·.burstEnd) ∧
      isTimeInRange (todOf t) (lookupCfg shiftsBCEx "C").checkOutStart
        (lookupCfg shiftsBCEx "C").checkOutEnd = true ∧
      ∀ b ∈ [(⟨77400, 77460⟩ : Burst), ⟨106800, 106860⟩],
        isTimeInRange (todOf b.burstEnd) (lookupCfg shiftsBCEx "C").checkOutStart
          (lookupCfg shiftsBCEx "C").checkOutEnd = true → b.burstEnd ≤ t)) :=
  ⟨by decide,
   shiftInstance_checkOut_spec shiftsBCEx [⟨77400, 77460⟩, ⟨106800, 106860⟩]
     ⟨"C", 0, 77400, some 106860, [⟨77400, 77460⟩, ⟨106800, 106860⟩]⟩ (by decide)⟩

/-- Decompose a list at a defined index. -/
theorem drop_cons_of_getElem? {α : Type} (l : List α) (j : Nat) (a : α)
    (h : l[j]? = some a) : l.drop j = a :: l.drop (j + 1) := by
  have hj : j < l.length := by
    by_contra hx
    rw [List.getElem?_eq_none_iff.mpr (by omega)] at h
    exact absurd h (by simp)
  rw [List.drop_eq_getElem_cons hj]
  have h2 := List.getElem?_eq_getElem hj
  rw [h2] at h
  simp_all

/-- Setting an index below the drop point leaves the drop unchanged. -/
theorem drop_set_of_lt {α : Type} (l : List α) (j : Nat) (a : α) (n : Nat)
    (h : j < n) : (l.set j a).drop n = l.drop n := by
  apply List.ext_getElem?
  intro i
  rw [List.getElem?_drop, List.getElem?_drop, List.getElem?_set_ne (by omega)]

/-- One unfolding step of the optimized inner scan. -/
theorem innerScanO_succ (cfg : ShiftConfig) (S : String) (windowEnd i n j : Nat)
    (cls : List Cls) (acc : List Burst) :
    innerScanO cfg S windowEnd i (n + 1) j cls acc =
      match cls[j]? with
      | none => (acc.reverse, cls)
      | some c =>
        if windowEnd < c.burst.burstStart then (acc.reverse, cls)
        else if decide (i < j) && stopsInstance cfg S c then (acc.reverse, cls)
        else innerScanO cfg S windowEnd i n (j + 1)
          (cls.set j { c with assigned := true }) (c.burst :: acc) := rfl

/-- The candidate predicate under which the optimized scan keeps assigning:
inside the activity window, and not a different-shift boundary. -/
def keepsScanning (cfg : ShiftConfig) (S : String) (windowEnd : Nat) (c : Cls) : Bool :=
  decide (c.burst.burstStart ≤ windowEnd) && !stopsInstance cfg S c

/-- The assigned bursts of the optimized inner scan past the opener are the
maximal `keepsScanning` prefix of the remaining candidates. -/
theorem innerScanO_fst (cfg : ShiftConfig) (S : String) (windowEnd i : Nat) :
    ∀ n j cls acc, i < j → cls.length ≤ j + n →
      (innerScanO cfg S windowEnd i n j cls acc).1 =
        acc.reverse ++
          ((cls.drop j).takeWhile (keepsScanning cfg S windowEnd)).map (·.burst) := by
  intro n
  induction n with
  | zero =>
    intro j cls acc hij hlen
    rw [List.drop_eq_nil_of_le (by omega)]
    simp [innerScanO]
  | succ n ih =>
    intro j cls acc hij hlen
    rw [innerScanO_succ]
    cases hc : cls[j]? with
    | none =>
      rw [List.drop_eq_nil_of_le (List.getElem?_eq_none_iff.mp hc)]
      simp
    | some c =>
      rw [drop_cons_of_getElem? cls j c hc, List.takeWhile_cons]
      dsimp only
      by_cases hw : windowEnd < c.burst.burstStart
      · rw [if_pos hw]
        have : keepsScanning cfg S windowEnd c = false := by
          simp [keepsScanning, Nat.not_le_of_lt hw]
        rw [this]
        simp
      · rw [if_neg hw]
        have hw' : c.burst.burstStart ≤ windowEnd := Nat.le_of_not_lt hw
        by_cases hs : stopsInstance cfg S c = true
        · rw [if_pos (by simp [hij, hs])]
          have : keepsScanning cfg S windowEnd c = false := by
            simp [keepsScanning, hs]
          rw [this]
          simp
        · rw [if_neg (by simp [hs])]
          have hk : keepsScanning cfg S windowEnd c = true := by
            simp [keepsScanning, hw', Bool.not_eq_true _ ▸ hs]
          rw [hk, ih (j + 1) (cls.set j { c with assigned := true }) (c.burst :: acc)
            (by omega) (by rw [List.length_set]; omega)]
          rw [drop_set_of_lt cls j _ (j + 1) (by omega)]
          simp [List.append_assoc]

/-- The optimized inner scan changes only `assigned` flags: it marks
exactly the positions it assigns (the opener-side run `[j, j + L)` for the
`keepsScanning` prefix length `L`) and leaves every other entry intact. -/
theorem innerScanO_snd_getElem (cfg : ShiftConfig) (S : String) (windowEnd i : Nat) :
    ∀ n j cls acc, i < j → cls.length ≤ j + n → ∀ p : Nat,
      ((innerScanO cfg S windowEnd i n j cls acc).2)[p]? =
        if j ≤ p ∧ p < j + ((cls.drop j).takeWhile (keepsScanning cfg S windowEnd)).length
        then (cls[p]?).map (fun c => { c with assigned := true })
        else cls[p]? := by
  intro n
  induction n with
  | zero =>
    intro j cls acc hij hlen p
    rw [List.drop_eq_nil_of_le (by omega)]
    simp only [innerScanO, List.takeWhile_nil, List.length_nil, Nat.add_zero]
    rw [if_neg (by omega)]
  | succ n ih =>
    intro j cls acc hij hlen p
    rw [innerScanO_succ]
    cases hc : cls[j]? with
    | none =>
      rw [List.drop_eq_nil_of_le (List.getElem?_eq_none_iff.mp hc)]
      simp only [List.takeWhile_nil, List.length_nil, Nat.add_zero]
      rw [if_neg (by omega)]
    | some c =>
      have hjlen : j < cls.length := by
        by_contra hx
        rw [List.getElem?_eq_none_iff.mpr (by omega)] at hc
        exact absurd hc (by simp)
      rw [drop_cons_of_getElem? cls j c hc, List.takeWhile_cons]
      dsimp only
      by_cases hw : windowEnd < c.burst.burstStart
      · rw [if_pos hw,
          show keepsScanning cfg S windowEnd c = false by
            simp [keepsScanning, Nat.not_le_of_lt hw]]
        simp only [Bool.false_eq_true, if_false, List.length_nil, Nat.add_zero]
        rw [if_neg (by omega)]
      · rw [if_neg hw]
        have hw' := Nat.le_of_not_lt hw
        by_cases hs : stopsInstance cfg S c = true
        · rw [if_pos (by simp [hij, hs]),
            show keepsScanning cfg S windowEnd c = false by simp [keepsScanning, hs]]
          simp only [Bool.false_eq_true, if_false, List.length_nil, Nat.add_zero]
          rw [if_neg (by omega)]
        · rw [if_neg (by simp [hs]),
            show keepsScanning cfg S windowEnd c = true by
              simp [keepsScanning, hw', Bool.not_eq_true _ ▸ hs]]
          simp only [if_true, List.length_cons]
          rw [ih (j + 1) (cls.set j { c with assigned := true }) (c.burst :: acc)
            (by omega) (by rw [List.length_set]; omega) p,
            drop_set_of_lt cls j _ (j + 1) (by omega)]
          by_cases hp : p = j
          · subst hp
            rw [if_neg (by omega), if_pos (by omega), List.getElem?_set_self hjlen, hc]
            rfl
          · rw [List.getElem?_set_ne (by omega : j ≠ p)]
            by_cases hrange : j + 1 ≤ p ∧
                p < j + 1 + ((cls.drop (j + 1)).takeWhile (keepsScanning cfg S windowEnd)).length
            · rw [if_pos hrange, if_pos (by omega)]
            · rw [if_neg hrange, if_neg (by omega)]

/-- The optimized inner scan preserves the array length. -/
theorem innerScanO_snd_length (cfg : ShiftConfig) (S : String) (windowEnd i : Nat) :
    ∀ n j cls acc, ((innerScanO cfg S windowEnd i n j cls acc).2).length = cls.length := by
  intro n
  induction n with
  | zero => intro j cls acc; rfl
  | succ n ih =>
    intro j cls acc
    rw [innerScanO_succ]
    cases hc : cls[j]? with
    | none => rfl
    | some c =>
      dsimp only
      by_cases hw : windowEnd < c.burst.burstStart
      · rw [if_pos hw]
      · rw [if_neg hw]
        by_cases hs : (decide (i < j) && stopsInstance cfg S c) = true
        · rw [if_pos hs]
        · rw [if_neg hs, ih]
          exact List.length_set cls j _

/-- A candidate inside the current shift's check-out window never triggers
the different-shift boundary (checkout priority). -/
theorem stopsInstance_false_of_inCheckout (cfg : ShiftConfig) (S : String) (c : Cls)
    (h : isTimeInRange c.time cfg.checkOutStart cfg.checkOutEnd = true) :
    stopsInstance cfg S c = false := by
  simp [stopsInstance, h]

/-- C1 (amended): in the optimized forward scan for an open instance of
shift `S`, a candidate after the opening burst and inside the activity
window closes the instance exactly when it is outside `S`'s **own**
check-out window, its nominal shift code is non-null and differs from `S`,
and its start time-of-day is at or after `S`'s **own** check-out-window
start (midnight-crossing windows of `S` use the
`candidate ≥ start ∨ candidate ≤ end` disjunction, as `atOrAfterCheckoutStart`
does); otherwise it is assigned, and a candidate inside `S`'s own check-out
window is always assigned: the assigned list is exactly the maximal prefix
of in-window non-stopping candidates. -/
theorem innerScan_assigns_iff (cfg : ShiftConfig) (S : String) (windowEnd i n j : Nat)
    (cls : List Cls) (acc : List Burst) (hij : i < j) (hlen : cls.length ≤ j + n) :
    (innerScanO cfg S windowEnd i n j cls acc).1 =
      acc.reverse ++
        ((cls.drop j).takeWhile
          (fun c => decide (c.burst.burstStart ≤ windowEnd) &&
            !(!isTimeInRange c.time cfg.checkOutStart cfg.checkOutEnd &&
              atOrAfterCheckoutStart cfg c.time &&
              c.shiftCode.isSome && !(c.shiftCode == some S)))).map (·.burst) ∧
    ∀ c : Cls, isTimeInRange c.time cfg.checkOutStart cfg.checkOutEnd = true →
      (!isTimeInRange c.time cfg.checkOutStart cfg.checkOutEnd &&
        atOrAfterCheckoutStart cfg c.time &&
        c.shiftCode.isSome && !(c.shiftCode == some S)) = false :=
  ⟨innerScanO_fst cfg S windowEnd i n j cls acc hij hlen,
   fun c h => stopsInstance_false_of_inCheckout cfg S c h⟩

/-- Witness for C1 (amended): the scan of the C1 counterexample
configuration starting right after the opening burst. -/
theorem innerScan_assigns_iff_witness :
    (0 : Nat) < 1 ∧
    (classifyBursts (checkInRangesOf shiftsBCEx) burstsBCEx).length ≤ 1 + 2 ∧
    ((innerScanO cfgNightEx "C" 110100 0 2 1
        (classifyBursts (checkInRangesOf shiftsBCEx) burstsBCEx) [⟨77400, 77460⟩]).1 =
      [⟨77400, 77460⟩].reverse ++
        (((classifyBursts (checkInRangesOf shiftsBCEx) burstsBCEx).drop 1).takeWhile
          (fun c => decide (c.burst.burstStart ≤ 110100) &&
            !(!isTimeInRange c.time cfgNightEx.checkOutStart cfgNightEx.checkOutEnd &&
              atOrAfterCheckoutStart cfgNightEx c.time &&
              c.shiftCode.isSome && !(c.shiftCode == some "C")))).map (·.burst) ∧
      ∀ c : Cls, isTimeInRange c.time cfgNightEx.checkOutStart cfgNightEx.checkOutEnd = true →
        (!isTimeInRange c.time cfgNightEx.checkOutStart cfgNightEx.checkOutEnd &&
          atOrAfterCheckoutStart cfgNightEx c.time &&
          c.shiftCode.isSome && !(c.shiftCode == some "C")) = false) :=
  ⟨by decide, by decide,
   innerScan_assigns_iff cfgNightEx "C" 110100 0 2 1
     (classifyBursts (checkInRangesOf shiftsBCEx) burstsBCEx) [⟨77400, 77460⟩]
     (by decide) (by decide)⟩

/-- One unfolding step of the optimized outer scan. -/
theorem outerScanO_succ (shifts : List (String × ShiftConfig)) (n i : Nat) (cls : List Cls) :
    outerScanO shifts (n + 1) i cls =
      match cls[i]? with
      | none => []
      | some c =>
        match c.shiftCode with
        | none => outerScanO shifts n (i + 1) cls
        | some S =>
          if c.assigned then outerScanO shifts n (i + 1) cls
          else
            let cfg := lookupCfg shifts S
            let shiftDate := extractDate c.burst.burstStart
            let windowEnd := calculateActivityWindowEnd shiftDate S cfg
            let res := innerScanO cfg S windowEnd i (cls.length + 1) i cls []
            if res.1.isEmpty then outerScanO shifts n (i + 1) res.2
            else mkInstance S shiftDate res.1 cfg :: outerScanO shifts n (i + 1) res.2 := rfl

/-- Strictly increasing, non-empty index ranges starting at or after `lo`. -/
def RangesSorted : Nat → List (Nat × Nat) → Prop
  | _, [] => True
  | lo, r :: rs => lo ≤ r.1 ∧ 1 ≤ r.2 ∧ RangesSorted (r.1 + r.2) rs

theorem RangesSorted.mono {lo lo' : Nat} {rs : List (Nat × Nat)}
    (h : RangesSorted lo rs) (hle : lo' ≤ lo) : RangesSorted lo' rs := by
  cases rs with
  | nil => trivial
  | cons r rs => exact ⟨le_trans hle h.1, h.2.1, h.2.2⟩

/-- The inner scan leaves the projection to bursts unchanged. -/
theorem innerScanO_map_burst (cfg : ShiftConfig) (S : String) (windowEnd i n j : Nat)
    (cls : List Cls) (acc : List Burst) (hij : i < j) (hlen : cls.length ≤ j + n) :
    ((innerScanO cfg S windowEnd i n j cls acc).2).map (·.burst) = cls.map (·.burst) := by
  apply List.ext_getElem?
  intro p
  rw [List.getElem?_map, List.getElem?_map,
    innerScanO_snd_getElem cfg S windowEnd i n j cls acc hij hlen p]
  split
  · cases cls[p]? <;> rfl
  · rfl

/-- The optimized outer scan produces instances whose assigned-burst lists
are consecutive, pairwise-disjoint index slices of the input burst list,
in increasing order of position. -/
theorem outerScanO_slices (shifts : List (String × ShiftConfig)) (bursts : List Burst) :
    ∀ n i e cls,
      cls.length ≤ i + n →
      cls.map (·.burst) = bursts →
      (∀ p c, i ≤ p → cls[p]? = some c → c.assigned = decide (p < e)) →
      ∃ rs, (outerScanO shifts n i cls).map (·.bursts) =
              rs.map (fun r => (bursts.drop r.1).take r.2) ∧
            RangesSorted (max i e) rs := by
  intro n
  induction n with
  | zero => intro i e cls _ _ _; exact ⟨[], rfl, trivial⟩
  | succ n ih =>
    intro i e cls hlen hmap hflag
    rw [outerScanO_succ]
    cases hc : cls[i]? with
    | none => exact ⟨[], rfl, trivial⟩
    | some c =>
      have hskip : ∀ cls', cls'.length ≤ (i + 1) + n → cls'.map (·.burst) = bursts →
          (∀ p c', i + 1 ≤ p → cls'[p]? = some c' → c'.assigned = decide (p < e)) →
          ∃ rs, (outerScanO shifts n (i + 1) cls').map (·.bursts) =
                  rs.map (fun r => (bursts.drop r.1).take r.2) ∧
                RangesSorted (max i e) rs := by
        intro cls' h1 h2 h3
        obtain ⟨rs, hr1, hr2⟩ := ih (i + 1) e cls' h1 h2 h3
        exact ⟨rs, hr1, hr2.mono (by omega)⟩
      dsimp only
      cases hcode : c.shiftCode with
      | none =>
        exact hskip cls (by omega) hmap
          (fun p c' hp hpc => hflag p c' (by omega) hpc)
      | some S =>
        dsimp only
        by_cases hass : c.assigned = true
        · rw [if_pos hass]
          exact hskip cls (by omega) hmap
            (fun p c' hp hpc => hflag p c' (by omega) hpc)
        · rw [if_neg hass]
          have hei : e ≤ i := by
            have h1 := hflag i c (le_refl i) hc
            rw [h1] at hass
            simpa using hass
          have hi_lt : i < cls.length := by
            by_contra hx
            rw [List.getElem?_eq_none_iff.mpr (by omega)] at hc
            exact absurd hc (by simp)
          set cfg := lookupCfg shifts S with hcfg
          set wE := calculateActivityWindowEnd (extractDate c.burst.burstStart) S cfg with hwE
          by_cases hw : wE < c.burst.burstStart
          · have hres : innerScanO cfg S wE i (cls.length + 1) i cls [] = ([], cls) := by
              rw [innerScanO_succ, hc]
              dsimp only
              rw [if_pos hw]
              rfl
            rw [hres]
            exact hskip cls (by omega) hmap
              (fun p c' hp hpc => hflag p c' (by omega) hpc)
          · have hres : innerScanO cfg S wE i (cls.length + 1) i cls [] =
                innerScanO cfg S wE i cls.length (i + 1)
                  (cls.set i { c with assigned := true }) [c.burst] := by
              rw [innerScanO_succ, hc]
              dsimp only
              rw [if_neg hw, if_neg (by simp)]
            set Ltw := ((cls.drop (i + 1)).takeWhile (keepsScanning cfg S wE)).length with hLtw
            have hsetlen : (cls.set i { c with assigned := true }).length = cls.length :=
              List.length_set cls i _
            have hdropset : (cls.set i { c with assigned := true }).drop (i + 1) =
                cls.drop (i + 1) := drop_set_of_lt cls i _ (i + 1) (by omega)
            have hfst : (innerScanO cfg S wE i (cls.length + 1) i cls []).1 =
                c.burst :: ((cls.drop (i + 1)).takeWhile (keepsScanning cfg S wE)).map (·.burst) := by
              rw [hres, innerScanO_fst cfg S wE i cls.length (i + 1) _ _ (by omega)
                (by rw [hsetlen]; omega), hdropset]
              rfl
            rw [hfst]
            rw [if_neg (by simp)]
            have hbst : bursts[i]? = some c.burst := by
              rw [← hmap, List.getElem?_map, hc]
              rfl
            have htw_take : (cls.drop (i + 1)).takeWhile (keepsScanning cfg S wE) =
                (cls.drop (i + 1)).take Ltw :=
              List.prefix_iff_eq_take.mp (List.takeWhile_prefix _)
            have hslice : c.burst ::
                ((cls.drop (i + 1)).takeWhile (keepsScanning cfg S wE)).map (·.burst) =
                (bursts.drop i).take (Ltw + 1) := by
              rw [drop_cons_of_getElem? bursts i c.burst hbst, List.take_succ_cons,
                htw_take, List.map_take, List.map_drop, hmap]
            -- the recursion state after the inner scan
            have hsnd_len : (innerScanO cfg S wE i (cls.length + 1) i cls []).2.length =
                cls.length := by
              rw [hres, innerScanO_snd_length, hsetlen]
            have hsnd_map : (innerScanO cfg S wE i (cls.length + 1) i cls []).2.map (·.burst) =
                bursts := by
              rw [hres, innerScanO_map_burst cfg S wE i cls.length (i + 1) _ _ (by omega)
                (by rw [hsetlen]; omega)]
              apply List.ext_getElem?
              intro p
              rw [List.getElem?_map, ← hmap, List.getElem?_map]
              by_cases hp : p = i
              · subst hp
                rw [List.getElem?_set_self hi_lt, hc]
                rfl
              · rw [List.getElem?_set_ne (by omega : i ≠ p)]
            have hsnd_elem : ∀ p : Nat,
                (innerScanO cfg S wE i (cls.length + 1) i cls []).2[p]? =
                  if i + 1 ≤ p ∧ p < i + 1 + Ltw
                  then ((cls.set i { c with assigned := true })[p]?).map
                    (fun c2 => { c2 with assigned := true })
                  else (cls.set i { c with assigned := true })[p]? := by
              intro p
              rw [hres]
              have h0 := innerScanO_snd_getElem cfg S wE i cls.length (i + 1)
                (cls.set i { c with assigned := true }) [c.burst] (by omega)
                (by rw [hsetlen]; omega) p
              rw [hdropset] at h0
              exact h0
            have hflag' : ∀ p c2, i + 1 ≤ p →
                (innerScanO cfg S wE i (cls.length + 1) i cls []).2[p]? = some c2 →
                c2.assigned = decide (p < i + (Ltw + 1)) := by
              intro p c2 hp hpc
              rw [hsnd_elem p] at hpc
              by_cases hrange : i + 1 ≤ p ∧ p < i + 1 + Ltw
              · rw [if_pos hrange, List.getElem?_set_ne (by omega : i ≠ p)] at hpc
                cases hcp : cls[p]? with
                | none => rw [hcp] at hpc; exact absurd hpc (by simp)
                | some corig =>
                  rw [hcp] at hpc
                  have : c2 = { corig with assigned := true } := by
                    simpa using hpc.symm
                  rw [this]
                  simp only []
                  rw [decide_eq_true (by omega : p < i + (Ltw + 1))]
              · rw [if_neg hrange, List.getElem?_set_ne (by omega : i ≠ p)] at hpc
                rw [hflag p c2 (by omega) hpc]
                have h1 : ¬ p < e := by omega
                have h2 : ¬ p < i + (Ltw + 1) := by omega
                rw [decide_eq_false h1, decide_eq_false h2]
            obtain ⟨rs', hr1, hr2⟩ := ih (i + 1) (i + (Ltw + 1))
              (innerScanO cfg S wE i (cls.length + 1) i cls []).2
              (by rw [hsnd_len]; omega) hsnd_map hflag'
            refine ⟨(i, Ltw + 1) :: rs', ?_, ?_⟩
            · rw [List.map_cons, hr1]
              rw [show (mkInstance S (extractDate c.burst.burstStart)
                  (c.burst :: ((cls.drop (i + 1)).takeWhile (keepsScanning cfg S wE)).map (·.burst))
                  cfg).bursts =
                  c.burst :: ((cls.drop (i + 1)).takeWhile (keepsScanning cfg S wE)).map (·.burst)
                from rfl]
              rw [hslice]
              rfl
            · exact ⟨by omega, by omega, hr2.mono (by omega)⟩

theorem mem_drop_of_mem_drop_ge (bursts : List Burst) (lo a : Nat) (hle : lo ≤ a) :
    ∀ b ∈ bursts.drop a, b ∈ bursts.drop lo := by
  intro b hb
  have : bursts.drop a = (bursts.drop lo).drop (a - lo) := by
    rw [List.drop_drop]
    congr 1
    omega
  rw [this] at hb
  exact List.drop_subset _ _ hb

/-- Every element of a slice of a sorted range list sits past `lo`. -/
theorem slice_mem_drop (bursts : List Burst) :
    ∀ rs lo, RangesSorted lo rs →
      ∀ r ∈ rs, ∀ b ∈ (bursts.drop r.1).take r.2, b ∈ bursts.drop lo := by
  intro rs
  induction rs with
  | nil => intro lo _ r hr; exact absurd hr (by simp)
  | cons r0 rs ih =>
    intro lo hs r hr b hb
    rcases List.mem_cons.mp hr with heq | htail
    · subst heq
      exact mem_drop_of_mem_drop_ge bursts lo r.1 hs.1 b (List.take_subset _ _ hb)
    · exact mem_drop_of_mem_drop_ge bursts lo (r0.1 + r0.2)
        (by have h1 := hs.1; omega)
        b (ih (r0.1 + r0.2) hs.2.2 r htail b hb)

/-- Slices of a sorted range list of a duplicate-free list are pairwise
disjoint. -/
theorem slices_pairwise_disjoint (bursts : List Burst) (hnd : bursts.Nodup) :
    ∀ rs lo, RangesSorted lo rs →
      List.Pairwise (fun l1 l2 => ∀ b ∈ l1, ¬ b ∈ l2)
        (rs.map (fun r => (bursts.drop r.1).take r.2)) := by
  intro rs
  induction rs with
  | nil => intro lo _; simp
  | cons r0 rs ih =>
    intro lo hs
    rw [List.map_cons]
    refine List.Pairwise.cons ?_ (ih (r0.1 + r0.2) hs.2.2)
    intro l2 hl2 b hb hb2
    obtain ⟨r, hr, heq⟩ := List.mem_map.mp hl2
    have hbdrop : b ∈ bursts.drop (r0.1 + r0.2) :=
      slice_mem_drop bursts rs (r0.1 + r0.2) hs.2.2 r hr b (heq ▸ hb2)
    have hbtake : b ∈ bursts.take (r0.1 + r0.2) := by
      have h1 : (bursts.drop r0.1).take r0.2 = (bursts.take (r0.1 + r0.2)).drop r0.1 :=
        List.take_drop r0.1 r0.2 bursts
      rw [h1] at hb
      exact List.drop_subset _ _ hb
    exact List.disjoint_take_drop hnd (le_refl (r0.1 + r0.2)) hbtake hbdrop

/-- C3: with pairwise-distinct burst records (the embedding of object
identity), the optimized classifier assigns each burst to at most one shift
instance — the produced instances' assigned-burst lists are pairwise
disjoint and none contains a burst twice. -/
theorem detectUserShifts_assignment_partition (shifts : List (String × ShiftConfig))
    (bursts : List Burst) (hnd : bursts.Nodup) :
    List.Pairwise (fun i1 i2 => ∀ b ∈ i1.bursts, ¬ b ∈ i2.bursts)
      (detectUserShifts shifts bursts) ∧
    ∀ inst ∈ detectUserShifts shifts bursts, inst.bursts.Nodup := by
  have hmap : (classifyBursts (checkInRangesOf shifts) bursts).map (·.burst) = bursts := by
    rw [classifyBursts, List.map_map]
    exact List.map_id'' (fun _ => rfl) bursts
  have hflag0 : ∀ p c, 0 ≤ p →
      (classifyBursts (checkInRangesOf shifts) bursts)[p]? = some c →
      c.assigned = decide (p < 0) := by
    intro p c _ hpc
    rw [classifyBursts, List.getElem?_map] at hpc
    cases hb : bursts[p]? with
    | none => rw [hb] at hpc; exact absurd hpc (by simp)
    | some b =>
      rw [hb] at hpc
      have hcb : c = ⟨b, todOf b.burstStart,
          findShiftCode (checkInRangesOf shifts) (todOf b.burstStart), false⟩ := by
        simpa using hpc.symm
      rw [hcb, decide_eq_false (by omega : ¬ p < 0)]
  obtain ⟨rs, hr1, hr2⟩ := outerScanO_slices shifts bursts
    (classifyBursts (checkInRangesOf shifts) bursts).length 0 0
    (classifyBursts (checkInRangesOf shifts) bursts) (by omega) hmap hflag0
  have hr1' : (detectUserShifts shifts bursts).map (·.bursts) =
      rs.map (fun r => (bursts.drop r.1).take r.2) := hr1
  have hr2' : RangesSorted 0 rs := hr2.mono (by omega)
  constructor
  · have hp := slices_pairwise_disjoint bursts hnd rs 0 hr2'
    rw [← hr1', List.pairwise_map] at hp
    exact hp
  · intro inst hmem
    have hmm : inst.bursts ∈ (detectUserShifts shifts bursts).map (·.bursts) :=
      List.mem_map_of_mem _ hmem
    rw [hr1'] at hmm
    obtain ⟨r, _, heq⟩ := List.mem_map.mp hmm
    rw [← heq]
    exact ((List.take_sublist _ _).trans (List.drop_sublist _ _)).nodup hnd

/-- Witness for C3: the two-instance run of the C1 example. -/
theorem detectUserShifts_assignment_partition_witness :
    burstsBCEx.Nodup ∧
    (List.Pairwise (fun i1 i2 => ∀ b ∈ i1.bursts, ¬ b ∈ i2.bursts)
      (detectUserShifts shiftsBCEx burstsBCEx) ∧
    ∀ inst ∈ detectUserShifts shiftsBCEx burstsBCEx, inst.bursts.Nodup) :=
  ⟨by decide, detectUserShifts_assignment_partition shiftsBCEx burstsBCEx (by decide)⟩

/-! ### Single-template equivalence of the two classifiers -/

/-- Exhausted input ends the optimized outer scan. -/
theorem outerScanO_nil (shifts : List (String × ShiftConfig)) (n i : Nat) (cls : List Cls)
    (h : cls.length ≤ i) : outerScanO shifts n i cls = [] := by
  cases n with
  | zero => rfl
  | succ n =>
    rw [outerScanO_succ, List.getElem?_eq_none_iff.mpr h]

/-- One unfolding step of the legacy outer scan. -/
theorem outerScanL_succ (shifts : List (String × ShiftConfig))
    (ranges : List (String × Nat × Nat)) (bursts : List Burst) (m i : Nat) :
    outerScanL shifts ranges bursts (m + 1) i =
      match bursts[i]? with
      | none => []
      | some b =>
        match findShiftCode ranges (todOf b.burstStart) with
        | none => outerScanL shifts ranges bursts m (i + 1)
        | some S =>
          let cfg := lookupCfg shifts S
          let shiftDate := extractDate b.burstStart
          let windowEnd := calculateActivityWindowEndLegacy shiftDate S cfg
          let res := innerScanL ranges cfg S windowEnd i bursts (bursts.length + 1) i []
          let rest := outerScanL shifts ranges bursts m res.2
          if res.1.isEmpty then rest
          else mkInstance S shiftDate res.1 cfg :: rest := rfl

/-- Exhausted input ends the legacy outer scan. -/
theorem outerScanL_nil (shifts : List (String × ShiftConfig))
    (ranges : List (String × Nat × Nat)) (bursts : List Burst) (m i : Nat)
    (h : bursts.length ≤ i) : outerScanL shifts ranges bursts m i = [] := by
  cases m with
  | zero => rfl
  | succ m =>
    rw [outerScanL_succ, List.getElem?_eq_none_iff.mpr h]

/-- One unfolding step of the legacy inner scan. -/
theorem innerScanL_succ (ranges : List (String × Nat × Nat)) (cfg : ShiftConfig) (S : String)
    (windowEnd i : Nat) (bursts : List Burst) (n j : Nat) (acc : List Burst) :
    innerScanL ranges cfg S windowEnd i bursts (n + 1) j acc =
      match bursts[j]? with
      | none => (acc.reverse, j)
      | some b =>
        if b.burstStart ≤ windowEnd then
          if decide (i < j) &&
              !isTimeInRange (todOf b.burstStart) cfg.checkOutStart cfg.checkOutEnd &&
              wouldStartDifferentShift ranges S (todOf b.burstStart) then (acc.reverse, j)
          else innerScanL ranges cfg S windowEnd i bursts n (j + 1) (b :: acc)
        else (acc.reverse, j) := rfl

/-- With a single template there is no other shift to start. -/
theorem wouldStartDifferentShift_single (X : String) (cfg : ShiftConfig) (t : Nat) :
    wouldStartDifferentShift (checkInRangesOf [(X, cfg)]) X t = false := by
  simp [wouldStartDifferentShift, checkInRangesOf]

/-- With a single template, `findShiftCode` only ever returns that code. -/
theorem findShiftCode_single (X : String) (cfg : ShiftConfig) (t : Nat) :
    findShiftCode (checkInRangesOf [(X, cfg)]) t = none ∨
    findShiftCode (checkInRangesOf [(X, cfg)]) t = some X := by
  by_cases h : isTimeInNormalizedRange (t / 60) (cfg.checkInStart / 60) (cfg.checkInEnd / 60) = true
  · right; simp [findShiftCode, checkInRangesOf, List.find?, h]
  · left; simp [findShiftCode, checkInRangesOf, List.find?, Bool.not_eq_true _ ▸ h]

/-- The single-template lookup returns the template. -/
theorem lookupCfg_single (X : String) (cfg : ShiftConfig) :
    lookupCfg [(X, cfg)] X = cfg := by
  simp [lookupCfg, List.find?]

/-- Against the single template's own code a candidate never stops the
scan. -/
theorem stopsInstance_single (cfg : ShiftConfig) (X : String) (c : Cls)
    (h : c.shiftCode = none ∨ c.shiftCode = some X) :
    stopsInstance cfg X c = false := by
  rcases h with h | h <;> simp [stopsInstance, h]

/-- `takeWhile` only depends on the predicate's values on the list. -/
theorem takeWhile_congr_mem {α : Type} (p q : α → Bool) :
    ∀ l : List α, (∀ x ∈ l, p x = q x) → l.takeWhile p = l.takeWhile q := by
  intro l
  induction l with
  | nil => intro _; rfl
  | cons a as ih =>
    intro h
    rw [List.takeWhile_cons, List.takeWhile_cons, h a (List.mem_cons_self a as),
      ih (fun x hx => h x (List.mem_cons_of_mem a hx))]

/-- With a single template the legacy inner scan takes exactly the
in-window prefix and reports the index where it stopped. -/
theorem innerScanL_single (X : String) (cfg : ShiftConfig) (windowEnd i : Nat)
    (bursts : List Burst) :
    ∀ n j acc, bursts.length ≤ j + n →
      innerScanL (checkInRangesOf [(X, cfg)]) cfg X windowEnd i bursts n j acc =
        (acc.reverse ++
          (bursts.drop j).takeWhile (fun b => decide (b.burstStart ≤ windowEnd)),
         j + ((bursts.drop j).takeWhile (fun b => decide (b.burstStart ≤ windowEnd))).length) := by
  intro n
  induction n with
  | zero =>
    intro j acc hlen
    rw [List.drop_eq_nil_of_le (by omega)]
    simp [innerScanL]
  | succ n ih =>
    intro j acc hlen
    rw [innerScanL_succ]
    cases hb : bursts[j]? with
    | none =>
      rw [List.drop_eq_nil_of_le (List.getElem?_eq_none_iff.mp hb)]
      simp
    | some b =>
      rw [drop_cons_of_getElem? bursts j b hb, List.takeWhile_cons]
      dsimp only
      by_cases hw : b.burstStart ≤ windowEnd
      · rw [if_pos hw, if_neg (by simp [wouldStartDifferentShift_single]),
          ih (j + 1) (b :: acc) (by omega)]
        rw [decide_eq_true hw]
        simp only [if_true, List.length_cons, List.reverse_cons, List.append_assoc,
          List.cons_append, List.nil_append]
        congr 1
        omega
      · rw [if_neg hw, decide_eq_false hw]
        simp

/-- With enough fuel to reach the end of the array, the optimized outer
scan does not depend on the exact fuel. -/
theorem outerScanO_fuel_irrel (shifts : List (String × ShiftConfig)) :
    ∀ n m i cls, cls.length ≤ i + n → cls.length ≤ i + m →
      outerScanO shifts n i cls = outerScanO shifts m i cls := by
  intro n
  induction n with
  | zero =>
    intro m i cls hn hm
    rw [outerScanO_nil shifts 0 i cls (by omega), outerScanO_nil shifts m i cls (by omega)]
  | succ n ih =>
    intro m i cls hn hm
    by_cases hi : cls.length ≤ i
    · rw [outerScanO_nil shifts _ i cls hi, outerScanO_nil shifts m i cls hi]
    · cases m with
      | zero => omega
      | succ m =>
        rw [outerScanO_succ, outerScanO_succ]
        cases hc : cls[i]? with
        | none => rfl
        | some c =>
          dsimp only
          cases c.shiftCode with
          | none => exact ih m (i + 1) cls (by omega) (by omega)
          | some S =>
            dsimp only
            by_cases hass : c.assigned = true
            · rw [if_pos hass, if_pos hass]
              exact ih m (i + 1) cls (by omega) (by omega)
            · rw [if_neg hass, if_neg hass]
              have hlen2 : (innerScanO (lookupCfg shifts S) S
                  (calculateActivityWindowEnd (extractDate c.burst.burstStart) S
                    (lookupCfg shifts S)) i (cls.length + 1) i cls []).2.length =
                  cls.length := innerScanO_snd_length _ _ _ _ _ _ _ _
              by_cases hemp : (innerScanO (lookupCfg shifts S) S
                  (calculateActivityWindowEnd (extractDate c.burst.burstStart) S
                    (lookupCfg shifts S)) i (cls.length + 1) i cls []).1.isEmpty = true
              · rw [if_pos hemp, if_pos hemp]
                exact ih m (i + 1) _ (by omega) (by omega)
              · rw [if_neg hemp, if_neg hemp]
                rw [ih m (i + 1) _ (by omega) (by omega)]

/-- The optimized outer scan skips over a block of already-assigned
entries. -/
theorem outerScanO_skip (shifts : List (String × ShiftConfig)) :
    ∀ d i cls n m, cls.length ≤ i + n → cls.length ≤ (i + d) + m →
      (∀ q c, i ≤ q → q < i + d → cls[q]? = some c → c.assigned = true) →
      outerScanO shifts n i cls = outerScanO shifts m (i + d) cls := by
  intro d
  induction d with
  | zero =>
    intro i cls n m hn hm _
    exact outerScanO_fuel_irrel shifts n m i cls hn (by omega)
  | succ d ih =>
    intro i cls n m hn hm hflag
    by_cases hi : cls.length ≤ i
    · rw [outerScanO_nil shifts n i cls hi,
        outerScanO_nil shifts m (i + (d + 1)) cls (by omega)]
    · cases n with
      | zero => omega
      | succ n =>
        rw [outerScanO_succ]
        cases hc : cls[i]? with
        | none => exact absurd (List.getElem?_eq_none_iff.mp hc) (by omega)
        | some c =>
          dsimp only
          have hass := hflag i c (le_refl i) (by omega) hc
          cases hcode : c.shiftCode with
          | none =>
            rw [show i + (d + 1) = (i + 1) + d by omega] at *
            exact ih (i + 1) cls n m (by omega) (by omega)
              (fun q c' hq1 hq2 hqc => hflag q c' (by omega) (by omega) hqc)
          | some S =>
            dsimp only
            rw [if_pos hass]
            rw [show i + (d + 1) = (i + 1) + d by omega] at *
            exact ih (i + 1) cls n m (by omega) (by omega)
              (fun q c' hq1 hq2 hqc => hflag q c' (by omega) (by omega) hqc)


/-- When an hour-0 check-out end forces the overnight code, the two
activity-window computations agree. -/
theorem windows_eq (X : String) (cfg : ShiftConfig)
    (H0 : cfg.checkOutEnd / 3600 = 0 → X = "C") (d : Nat) :
    calculateActivityWindowEnd d X cfg = calculateActivityWindowEndLegacy d X cfg := by
  by_cases hX : X = "C"
  · subst hX
    simp [calculateActivityWindowEnd, calculateActivityWindowEndLegacy]
  · by_cases h0 : cfg.checkOutEnd / 3600 = 0
    · exact absurd (H0 h0) hX
    · simp [calculateActivityWindowEnd, calculateActivityWindowEndLegacy, hX, h0]

/-- A successful single-template classification means the time is in the
check-in window. -/
theorem findShiftCode_single_some_in (X : String) (cfg : ShiftConfig) (t : Nat) (S : String)
    (h : findShiftCode (checkInRangesOf [(X, cfg)]) t = some S) :
    isTimeInNormalizedRange (t / 60) (cfg.checkInStart / 60) (cfg.checkInEnd / 60) = true := by
  by_cases hin : isTimeInNormalizedRange (t / 60) (cfg.checkInStart / 60)
      (cfg.checkInEnd / 60) = true
  · exact hin
  · unfold findShiftCode checkInRangesOf at h
    simp [List.find?, hin] at h

/-- Under the amendment's window hypotheses the opening burst always lies
inside its own activity window. -/
theorem opener_in_window (X : String) (cfg : ShiftConfig)
    (H1 : cfg.checkOutEnd / 3600 ≠ 0 → X ≠ "C" →
      cfg.checkInStart / 60 ≤ cfg.checkInEnd / 60 ∧
      cfg.checkInEnd / 60 < cfg.checkOutEnd / 60)
    (t : Nat)
    (hin : isTimeInNormalizedRange (todOf t / 60) (cfg.checkInStart / 60)
      (cfg.checkInEnd / 60) = true) :
    t ≤ calculateActivityWindowEnd (extractDate t) X cfg := by
  unfold calculateActivityWindowEnd
  by_cases h0 : cfg.checkOutEnd / 3600 = 0
  · rw [if_pos (by simp [h0])]
    unfold extractDate
    have h1 : t % 86400 < 86400 := Nat.mod_lt t (by omega)
    omega
  · by_cases hX : X = "C"
    · rw [if_pos (by simp [hX])]
      unfold extractDate
      have h1 : t % 86400 < 86400 := Nat.mod_lt t (by omega)
      omega
    · rw [if_neg (by simp [h0, hX])]
      obtain ⟨hciB, hco⟩ := H1 h0 hX
      unfold isTimeInNormalizedRange at hin
      rw [if_pos hciB] at hin
      have h2 : todOf t / 60 ≤ cfg.checkInEnd / 60 := by
        have := (Bool.and_eq_true _ _ ▸ hin).2
        simpa using this
      unfold extractDate todOf at *
      omega

/-- With a single shift template satisfying the amendment's side conditions,
the optimized and the legacy outer scans agree from any start index, on any
classification state faithful to the burst list and unassigned from that
index on. -/
theorem outer_eq_single_aux (X : String) (cfg : ShiftConfig)
    (H0 : cfg.checkOutEnd / 3600 = 0 → X = "C")
    (H1 : cfg.checkOutEnd / 3600 ≠ 0 → X ≠ "C" →
      cfg.checkInStart / 60 ≤ cfg.checkInEnd / 60 ∧
      cfg.checkInEnd / 60 < cfg.checkOutEnd / 60)
    (bursts : List Burst) :
    ∀ (k i : Nat) (cls : List Cls) (n m : Nat),
      cls.length ≤ i + k →
      cls.length ≤ i + n →
      cls.length ≤ i + m →
      cls.map (·.burst) = bursts →
      (∀ (p : Nat) (c : Cls), cls[p]? = some c →
        c.shiftCode = findShiftCode (checkInRangesOf [(X, cfg)]) (todOf c.burst.burstStart)) →
      (∀ (p : Nat) (c : Cls), i ≤ p → cls[p]? = some c → c.assigned = false) →
      outerScanO [(X, cfg)] n i cls =
        outerScanL [(X, cfg)] (checkInRangesOf [(X, cfg)]) bursts m i := by
  intro k
  induction k with
  | zero =>
    intro i cls n m hk hn hm hmap hcode hflag
    have hblen : bursts.length = cls.length := by rw [← hmap, List.length_map]
    rw [outerScanO_nil _ n i cls (by omega), outerScanL_nil _ _ bursts m i (by omega)]
  | succ k ih =>
    intro i cls n m hk hn hm hmap hcode hflag
    have hblen : bursts.length = cls.length := by rw [← hmap, List.length_map]
    by_cases hi : cls.length ≤ i
    · rw [outerScanO_nil _ n i cls hi, outerScanL_nil _ _ bursts m i (by omega)]
    · cases n with
      | zero => omega
      | succ n =>
        cases m with
        | zero => omega
        | succ m =>
          rw [outerScanO_succ, outerScanL_succ]
          cases hc : cls[i]? with
          | none => exact absurd (List.getElem?_eq_none_iff.mp hc) (by omega)
          | some c =>
            have hbc : bursts[i]? = some c.burst := by
              rw [← hmap, List.getElem?_map, hc]
              rfl
            rw [hbc]
            dsimp only
            have hcode_i := hcode i c hc
            rw [hcode_i]
            cases hfc : findShiftCode (checkInRangesOf [(X, cfg)])
                (todOf c.burst.burstStart) with
            | none =>
              dsimp only
              exact ih (i + 1) cls n m (by omega) (by omega) (by omega) hmap hcode
                (fun p c' hp hpc => hflag p c' (by omega) hpc)
            | some S =>
              have hSX : S = X := by
                rcases findShiftCode_single X cfg (todOf c.burst.burstStart) with h | h
                · exact absurd (h.symm.trans hfc) (by simp)
                · exact (Option.some.inj (h.symm.trans hfc)).symm
              have hXS : X = S := hSX.symm
              subst hXS
              dsimp only
              have hass : ¬ c.assigned = true := by
                rw [hflag i c (le_refl i) hc]
                simp
              rw [if_neg hass]
              rw [lookupCfg_single]
              rw [← windows_eq X cfg H0 (extractDate c.burst.burstStart)]
              set wE := calculateActivityWindowEnd (extractDate c.burst.burstStart) X cfg
                with hwE
              have hin := findShiftCode_single_some_in X cfg (todOf c.burst.burstStart) X hfc
              have hopen : c.burst.burstStart ≤ wE := by
                rw [hwE]
                exact opener_in_window X cfg H1 c.burst.burstStart hin
              have hw : ¬ wE < c.burst.burstStart := by omega
              have hi_lt : i < cls.length := by omega
              have hres : innerScanO cfg X wE i (cls.length + 1) i cls [] =
                  innerScanO cfg X wE i cls.length (i + 1)
                    (cls.set i { c with assigned := true }) [c.burst] := by
                rw [innerScanO_succ, hc]
                dsimp only
                rw [if_neg hw, if_neg (by simp)]
              set Ltw := ((cls.drop (i + 1)).takeWhile (keepsScanning cfg X wE)).length
                with hLtw
              have hsetlen : (cls.set i { c with assigned := true }).length = cls.length :=
                List.length_set cls i _
              have hdropset : (cls.set i { c with assigned := true }).drop (i + 1) =
                  cls.drop (i + 1) := drop_set_of_lt cls i _ (i + 1) (by omega)
              have hfst : (innerScanO cfg X wE i (cls.length + 1) i cls []).1 =
                  c.burst ::
                    ((cls.drop (i + 1)).takeWhile (keepsScanning cfg X wE)).map (·.burst) := by
                rw [hres, innerScanO_fst cfg X wE i cls.length (i + 1) _ _ (by omega)
                  (by rw [hsetlen]; omega), hdropset]
                rfl
              have htw_eq : (cls.drop (i + 1)).takeWhile (keepsScanning cfg X wE) =
                  (cls.drop (i + 1)).takeWhile
                    (fun c' => decide (c'.burst.burstStart ≤ wE)) := by
                apply takeWhile_congr_mem
                intro c' hc'
                obtain ⟨p, hp⟩ := List.getElem?_of_mem (List.drop_subset _ _ hc')
                have hcode' := hcode p c' hp
                have hstop : stopsInstance cfg X c' = false := by
                  apply stopsInstance_single
                  rcases findShiftCode_single X cfg (todOf c'.burst.burstStart) with h | h
                  · left; rw [hcode', h]
                  · right; rw [hcode', h]
                simp [keepsScanning, hstop]
              have hmapdrop : (cls.drop (i + 1)).map (·.burst) = bursts.drop (i + 1) := by
                rw [List.map_drop, hmap]
              have h1 : ((cls.drop (i + 1)).takeWhile
                    (fun c' => decide (c'.burst.burstStart ≤ wE))).map (·.burst) =
                  ((cls.drop (i + 1)).map (·.burst)).takeWhile
                    (fun b => decide (b.burstStart ≤ wE)) := by
                rw [List.takeWhile_map]
                rfl
              have hfstL : (innerScanO cfg X wE i (cls.length + 1) i cls []).1 =
                  c.burst ::
                    (bursts.drop (i + 1)).takeWhile (fun b => decide (b.burstStart ≤ wE)) := by
                rw [hfst, htw_eq, h1, hmapdrop]
              have hlen_eq : ((bursts.drop (i + 1)).takeWhile
                    (fun b => decide (b.burstStart ≤ wE))).length = Ltw := by
                rw [hLtw, htw_eq, ← hmapdrop, ← h1, List.length_map]
              have hresL := innerScanL_single X cfg wE i bursts (bursts.length + 1) i []
                (by omega)
              have hdropb : bursts.drop i = c.burst :: bursts.drop (i + 1) :=
                drop_cons_of_getElem? bursts i c.burst hbc
              have htwL : (bursts.drop i).takeWhile (fun b => decide (b.burstStart ≤ wE)) =
                  c.burst ::
                    (bursts.drop (i + 1)).takeWhile (fun b => decide (b.burstStart ≤ wE)) := by
                rw [hdropb, List.takeWhile_cons, if_pos (by simpa using hopen)]
              rw [hresL]
              dsimp only
              rw [htwL]
              rw [hfstL]
              rw [if_neg (by simp), if_neg (by simp)]
              -- the state handed to the recursive calls
              have hsnd_len : (innerScanO cfg X wE i (cls.length + 1) i cls []).2.length =
                  cls.length := by
                rw [hres, innerScanO_snd_length, hsetlen]
              have hsnd_map : (innerScanO cfg X wE i (cls.length + 1) i cls []).2.map (·.burst) =
                  bursts := by
                rw [hres, innerScanO_map_burst cfg X wE i cls.length (i + 1) _ _ (by omega)
                  (by rw [hsetlen]; omega)]
                apply List.ext_getElem?
                intro p
                rw [List.getElem?_map, ← hmap, List.getElem?_map]
                by_cases hp : p = i
                · subst hp
                  rw [List.getElem?_set_self hi_lt, hc]
                  rfl
                · rw [List.getElem?_set_ne (by omega : i ≠ p)]
              have hsnd_elem : ∀ p : Nat,
                  (innerScanO cfg X wE i (cls.length + 1) i cls []).2[p]? =
                    if i + 1 ≤ p ∧ p < i + 1 + Ltw
                    then ((cls.set i { c with assigned := true })[p]?).map
                      (fun c2 => { c2 with assigned := true })
                    else (cls.set i { c with assigned := true })[p]? := by
                intro p
                rw [hres]
                have h0 := innerScanO_snd_getElem cfg X wE i cls.length (i + 1)
                  (cls.set i { c with assigned := true }) [c.burst] (by omega)
                  (by rw [hsetlen]; omega) p
                rw [hdropset] at h0
                exact h0
              have hcode2 : ∀ (p : Nat) (c2 : Cls),
                  (innerScanO cfg X wE i (cls.length + 1) i cls []).2[p]? = some c2 →
                  c2.shiftCode =
                    findShiftCode (checkInRangesOf [(X, cfg)]) (todOf c2.burst.burstStart) := by
                intro p c2 hpc
                rw [hsnd_elem p] at hpc
                by_cases hp : p = i
                · rw [hp, if_neg (by omega), List.getElem?_set_self hi_lt] at hpc
                  have hcc : c2 = { c with assigned := true } := by simpa using hpc.symm
                  rw [hcc]
                  exact hcode i c hc
                · by_cases hrange : i + 1 ≤ p ∧ p < i + 1 + Ltw
                  · rw [if_pos hrange, List.getElem?_set_ne (by omega : i ≠ p)] at hpc
                    cases hcp : cls[p]? with
                    | none => rw [hcp] at hpc; exact absurd hpc (by simp)
                    | some corig =>
                      rw [hcp] at hpc
                      have hcc : c2 = { corig with assigned := true } := by
                        simpa using hpc.symm
                      rw [hcc]
                      exact hcode p corig hcp
                  · rw [if_neg hrange, List.getElem?_set_ne (by omega : i ≠ p)] at hpc
                    exact hcode p c2 hpc
              have hflag2 : ∀ (p : Nat) (c2 : Cls), i + 1 + Ltw ≤ p →
                  (innerScanO cfg X wE i (cls.length + 1) i cls []).2[p]? = some c2 →
                  c2.assigned = false := by
                intro p c2 hp hpc
                rw [hsnd_elem p, if_neg (by omega),
                  List.getElem?_set_ne (by omega : i ≠ p)] at hpc
                exact hflag p c2 (by omega) hpc
              have hblock : ∀ (q : Nat) (c2 : Cls), i + 1 ≤ q → q < i + 1 + Ltw →
                  (innerScanO cfg X wE i (cls.length + 1) i cls []).2[q]? = some c2 →
                  c2.assigned = true := by
                intro q c2 hq1 hq2 hpc
                rw [hsnd_elem q, if_pos ⟨hq1, hq2⟩,
                  List.getElem?_set_ne (by omega : i ≠ q)] at hpc
                cases hcp : cls[q]? with
                | none => rw [hcp] at hpc; exact absurd hpc (by simp)
                | some corig =>
                  rw [hcp] at hpc
                  have hcc : c2 = { corig with assigned := true } := by
                    simpa using hpc.symm
                  rw [hcc]
              have hskip := outerScanO_skip [(X, cfg)] Ltw (i + 1)
                (innerScanO cfg X wE i (cls.length + 1) i cls []).2 n n
                (by rw [hsnd_len]; omega) (by rw [hsnd_len]; omega) hblock
              have hih := ih (i + 1 + Ltw)
                (innerScanO cfg X wE i (cls.length + 1) i cls []).2 n m
                (by rw [hsnd_len]; omega) (by rw [hsnd_len]; omega)
                (by rw [hsnd_len]; omega) hsnd_map hcode2 hflag2
              rw [List.length_cons, hlen_eq,
                show i + (Ltw + 1) = i + 1 + Ltw from by omega]
              rw [hskip, hih, List.reverse_nil, List.nil_append]

/-- C2 (amended): the optimized and the legacy `detectUserShifts` produce
identical instance lists whenever the shift map holds a single template, its
check-out-end hour being 0 implies the template is the overnight code `"C"`,
and otherwise the normalized check-in window is well-formed and ends before
the check-out end.  (The unconditional claim is refuted separately: the two
window-extension rules and stop conditions diverge on multi-shift maps.) -/
theorem detectUserShifts_single_template_eq (X : String) (cfg : ShiftConfig)
    (H0 : cfg.checkOutEnd / 3600 = 0 → X = "C")
    (H1 : cfg.checkOutEnd / 3600 ≠ 0 → X ≠ "C" →
      cfg.checkInStart / 60 ≤ cfg.checkInEnd / 60 ∧
      cfg.checkInEnd / 60 < cfg.checkOutEnd / 60)
    (bursts : List Burst) :
    detectUserShifts [(X, cfg)] bursts = detectUserShiftsLegacy [(X, cfg)] bursts := by
  unfold detectUserShifts detectUserShiftsLegacy
  have hmap : (classifyBursts (checkInRangesOf [(X, cfg)]) bursts).map (·.burst) = bursts := by
    rw [classifyBursts, List.map_map]
    exact List.map_id'' (fun _ => rfl) bursts
  have hlen : (classifyBursts (checkInRangesOf [(X, cfg)]) bursts).length = bursts.length := by
    rw [classifyBursts, List.length_map]
  have hcode : ∀ (p : Nat) (c : Cls),
      (classifyBursts (checkInRangesOf [(X, cfg)]) bursts)[p]? = some c →
      c.shiftCode = findShiftCode (checkInRangesOf [(X, cfg)]) (todOf c.burst.burstStart) := by
    intro p c hpc
    rw [classifyBursts, List.getElem?_map] at hpc
    cases hb : bursts[p]? with
    | none => rw [hb] at hpc; exact absurd hpc (by simp)
    | some b =>
      rw [hb] at hpc
      have hcb : c = ⟨b, todOf b.burstStart,
          findShiftCode (checkInRangesOf [(X, cfg)]) (todOf b.burstStart), false⟩ := by
        simpa using hpc.symm
      rw [hcb]
  have hflag : ∀ (p : Nat) (c : Cls), 0 ≤ p →
      (classifyBursts (checkInRangesOf [(X, cfg)]) bursts)[p]? = some c →
      c.assigned = false := by
    intro p c _ hpc
    rw [classifyBursts, List.getElem?_map] at hpc
    cases hb : bursts[p]? with
    | none => rw [hb] at hpc; exact absurd hpc (by simp)
    | some b =>
      rw [hb] at hpc
      have hcb : c = ⟨b, todOf b.burstStart,
          findShiftCode (checkInRangesOf [(X, cfg)]) (todOf b.burstStart), false⟩ := by
        simpa using hpc.symm
      rw [hcb]
  exact outer_eq_single_aux X cfg H0 H1 bursts
    (classifyBursts (checkInRangesOf [(X, cfg)]) bursts).length 0
    (classifyBursts (checkInRangesOf [(X, cfg)]) bursts)
    (classifyBursts (checkInRangesOf [(X, cfg)]) bursts).length (bursts.length + 1)
    (by omega) (by omega) (by omega) hmap hcode hflag

/-- Witness for the amended C2 equivalence: a single morning template with
the A/B example's bursts. -/
theorem detectUserShifts_single_template_eq_witness :
    ((cfgMorningEx.checkOutEnd / 3600 = 0 → "A" = "C") ∧
     (cfgMorningEx.checkOutEnd / 3600 ≠ 0 → "A" ≠ "C" →
       cfgMorningEx.checkInStart / 60 ≤ cfgMorningEx.checkInEnd / 60 ∧
       cfgMorningEx.checkInEnd / 60 < cfgMorningEx.checkOutEnd / 60)) ∧
    detectUserShifts [("A", cfgMorningEx)] burstsABEx =
      detectUserShiftsLegacy [("A", cfgMorningEx)] burstsABEx :=
  ⟨⟨by decide, by decide⟩,
   detectUserShifts_single_template_eq "A" cfgMorningEx (by decide) (by decide) burstsABEx⟩
